import Mathlib

/-!
Verification development for the BlockProof credential backend.

Shallow embedding of the event-indexing, issuance-orchestration and
verification-resolution subsystems:

* `src/backend/blockchain/tasks.py` (`index_blockchain_events`,
  `_process_credential_issued_event`, `_process_credential_revoked_event`)
* `src/backend/blockchain/sync_handlers.py` (`sync_credential_issued`,
  `sync_credential_revoked`)
* `src/backend/blockchain/services.py` (`BlockProofService.get_events`,
  `verify_fingerprint`, `issue_credential`)
* `src/backend/blockchain/models.py` (`IndexerState`, event tables)
* `src/backend/credentials/models.py` (`Credential.is_valid`)
* `src/backend/credentials/verification_views.py` (`verify_from_link`)
* `src/backend/credentials/views.py` (`_normalize_0x_hex`)

Python strings are modelled as `List Char`; Django rows as structures;
tables as lists of rows; `update_or_create` as a keyed upsert.
-/

/-- Python strings, modelled as lists of characters. -/
abbrev PyStr := List Char

/-- Python `str.lower()` (the source only lowercases ASCII hex/address data). -/
def pyLower (s : PyStr) : PyStr := s.map Char.toLower

/-- One step of Python whitespace removal: `List.dropWhile Char.isWhitespace`. -/
def dropWS (s : PyStr) : PyStr := s.dropWhile Char.isWhitespace

/-- Python `str.strip()`: remove leading and trailing whitespace. -/
def pyStrip (s : PyStr) : PyStr := (dropWS ((dropWS s).reverse)).reverse

/-- The `while fingerprint_clean.startswith('0x'): fingerprint_clean = fingerprint_clean[2:]`
loop of `verify_from_link` (the string is already lowercased at that point). -/
def strip0x : PyStr → PyStr
  | c :: d :: rest => if c = '0' ∧ d = 'x' then strip0x rest else c :: d :: rest
  | l => l

/-- Python `s.replace(ab, '')` for a two-character pattern `ab`: remove every
(non-overlapping, left-to-right) occurrence of the pattern. -/
def replace2 (a b : Char) : PyStr → PyStr
  | c :: d :: rest =>
    if c = a ∧ d = b then replace2 a b rest else c :: replace2 a b (d :: rest)
  | l => l

/-- A hexadecimal digit (either case), as accepted by `int(s, 16)` /
`bytes.fromhex` on the validated 64-character core. -/
def isHexChar (c : Char) : Bool :=
  (decide ('0' ≤ c) && decide (c ≤ '9')) ||
  (decide ('a' ≤ c) && decide (c ≤ 'f')) ||
  (decide ('A' ≤ c) && decide (c ≤ 'F'))

/-- The fingerprint validation performed inside `BlockProofService.verify_fingerprint`:
`len(clean) == 64`, `int(clean, 16)` parses and `bytes.fromhex(clean)` yields 32
bytes (the composition succeeds exactly on 64 hex characters: any non-hex string
that slips through `int` makes `bytes.fromhex` or the `bytes32` ABI encoding
raise, which the function catches, returning `None`). -/
def valid64hex (s : PyStr) : Bool := s.length == 64 && s.all isHexChar

/-- The normalization `verify_from_link` applies to the supplied fingerprint
(lines 39-41 of `verification_views.py`): `strip()`, `lower()`, then strip all
leading `0x` pairs. -/
def view_clean (fp : PyStr) : PyStr := strip0x (pyLower (pyStrip fp))

/-- The cleaning `BlockProofService.verify_fingerprint` applies to its argument:
`fingerprint.replace('0x', '').replace('0X', '').lower()`. -/
def vf_clean (fp : PyStr) : PyStr := pyLower (replace2 '0' 'X' (replace2 '0' 'x' fp))

/-- The case-insensitive prefix-stripping loop inside `_normalize_0x_hex`
(`while v.lower().startswith("0x"): v = v[2:]`). -/
def strip0xCI : PyStr → PyStr
  | c :: d :: rest =>
    if Char.toLower c = '0' ∧ Char.toLower d = 'x' then strip0xCI rest else c :: d :: rest
  | l => l

/-- `_normalize_0x_hex` from `credentials/views.py`: strip, drop all leading
`0x`/`0X` prefixes (checked case-insensitively), re-attach a single `0x` and
lowercase the rest. -/
def normalize_0x_hex (value : PyStr) : PyStr :=
  let v := pyStrip value
  if v = [] then v else '0' :: 'x' :: pyLower (strip0xCI v)

/-- Python truthiness filter used on optional integers
(`x if x else None`): `0` and `None` collapse to `None`. -/
def truthyOpt : Option Nat → Option Nat
  | some v => if v = 0 then none else some v
  | none => none

/-- Python truthiness of `expires_at and expires_at < now` (the `expired` flag
computed by `Credential.is_valid` and echoed by `verify_from_link`). -/
def pyExpired (expires_at : Option Nat) (now : Nat) : Bool :=
  match expires_at with
  | none => false
  | some v => (!(v == 0)) && decide (v < now)

/-- Row of the `credentials` table (`credentials/models.py`, class `Credential`).
Django's automatic `created_at`/`updated_at` bookkeeping columns are omitted. -/
structure CredentialRow where
  credential_id : Nat
  student_wallet : PyStr
  institution_address : PyStr
  fingerprint : PyStr
  metadata_uri : String
  encrypted_payload_uri : String
  issued_at : Nat
  expires_at : Option Nat
  revoked : Bool
  revoked_at : Option Nat
  revocation_reason_hash : Option String
  student_name : String
  passport_number : String
  degree_type : String
  graduation_year : Option Nat
  diploma_file_hash : Option String
  diploma_file_path : Option String
  transaction_hash : Option String
deriving DecidableEq

/-- `Credential.is_valid` (`credentials/models.py` lines 49-55). -/
def CredentialRow.is_valid (c : CredentialRow) (now : Nat) : Bool :=
  if c.revoked then false
  else if pyExpired c.expires_at now then false
  else true

/-- Row of the `institutions` table (`institutions/models.py`). -/
structure InstitutionRow where
  address : PyStr
  name : String
  is_active : Bool
  created_at : Nat
  last_updated_at : Nat
deriving DecidableEq

/-- Row of `blockchain_credential_issued` (`blockchain/models.py`,
`CredentialIssuedEvent`). Transaction hashes are abstract identifiers. -/
structure CredentialIssuedEventRow where
  transaction_hash : Nat
  block_number : Nat
  log_index : Nat
  credential_id : Nat
  student_wallet : PyStr
  institution : PyStr
  fingerprint : PyStr
  metadata_uri : String
  encrypted_payload_uri : String
  expires_at : Option Nat
  processed : Bool
deriving DecidableEq

/-- Row of `blockchain_credential_revoked` (`blockchain/models.py`,
`CredentialRevokedEvent`). -/
structure CredentialRevokedEventRow where
  transaction_hash : Nat
  block_number : Nat
  log_index : Nat
  credential_id : Nat
  revoked_by : PyStr
  reason_hash : String
  revoked_at : Nat
  processed : Bool
deriving DecidableEq

/-- The relational store: event cache tables, domain cache tables and the
`blockchain_indexer_state` checkpoint table. -/
structure DB where
  issued_events : List CredentialIssuedEventRow
  revoked_events : List CredentialRevokedEventRow
  institutions : List InstitutionRow
  credentials : List CredentialRow
  indexer_state : List (String × Nat)
deriving DecidableEq

/-- `Credential.objects.get(credential_id=...)` as used by the views
(unique-keyed point lookup). -/
def findCredential (rows : List CredentialRow) (cid : Nat) : Option CredentialRow :=
  rows.find? (fun r => r.credential_id == cid)

/-- Decoded on-chain status as returned by
`BlockProofService.get_credential_status` (only the fields `verify_from_link`
reads are modelled). -/
structure ChainStatus where
  valid : Bool
  revoked : Bool
deriving DecidableEq

/-- The chain-facing state `verify_from_link` can observe.  `callResult = none`
models the contract call raising inside `verify_fingerprint` (RPC/config
failure); `some b` models the call returning the boolean `b`. -/
structure VerifyChain where
  contractConfigured : Bool
  callResult : Option Bool
  statusData : Option ChainStatus
deriving DecidableEq

/-- `BlockProofService.verify_fingerprint` (`blockchain/services.py` lines
178-216): returns `some b` for a contract answer, `none` on any error
(unconfigured contract, malformed fingerprint, raising call). -/
def verify_fingerprint (ch : VerifyChain) (_credential_id : Nat) (fingerprint : PyStr) :
    Option Bool :=
  if !ch.contractConfigured then none
  else
    let fingerprint_clean := vf_clean fingerprint
    if valid64hex fingerprint_clean then ch.callResult else none

/-- Verification verdict tags of `verify_from_link`. -/
inductive VerifyStatus where
  | VALID
  | INVALID
  | TAMPERED
  | NOT_FOUND
deriving DecidableEq

/-- The distinct responses `verify_from_link` can produce.  `cacheValid`
carries the `valid`/`revoked`/`expired` booleans of the matching-fingerprint
cache branch; `cacheTampered` carries the echoed expected/provided
fingerprints; `chainNegative` is the shared TAMPERED/NOT_FOUND fall-through
of the blockchain branch; `serviceUnavailable` is the HTTP 503 response. -/
inductive VerifyResponse where
  | invalidId
  | cacheValid (st : VerifyStatus) (valid revoked expired : Bool)
  | cacheTampered (expected_fingerprint provided_fingerprint : PyStr)
  | chainStatus (st : VerifyStatus) (valid revoked : Bool)
  | chainNegative (st : VerifyStatus)
  | serviceUnavailable
deriving DecidableEq

/-- The `status` tag of a response, when the response is a verdict. -/
def VerifyResponse.statusTag : VerifyResponse → Option VerifyStatus
  | .cacheValid st _ _ _ => some st
  | .cacheTampered _ _ => some .TAMPERED
  | .chainStatus st _ _ => some st
  | .chainNegative st => some st
  | _ => none

/-- The `fingerprint_match` field of a response, when present. -/
def VerifyResponse.fingerprintMatch : VerifyResponse → Option Bool
  | .cacheValid _ _ _ _ => some true
  | .cacheTampered _ _ => some false
  | .chainStatus _ _ _ => some true
  | .chainNegative _ => some false
  | _ => none

/-- `verify_from_link` (`credentials/verification_views.py` lines 19-134).
`credential_id` is the result of the `int(credential_id)` parse (`none`
models the `ValueError` branch).  `now` is the reading of `time.time()`. -/
def verify_from_link (db : DB) (ch : VerifyChain) (credential_id : Option Nat)
    (fingerprint : PyStr) (now : Nat) : VerifyResponse :=
  match credential_id with
  | none => .invalidId
  | some credential_id_int =>
    let fingerprint_clean := view_clean fingerprint
    match findCredential db.credentials credential_id_int with
    | some credential =>
      let credential_fp := replace2 '0' 'x' (pyLower credential.fingerprint)
      if credential_fp = fingerprint_clean then
        let is_valid := credential.is_valid now
        .cacheValid (if is_valid then .VALID else .INVALID) is_valid credential.revoked
          (pyExpired credential.expires_at now)
      else
        .cacheTampered credential.fingerprint ('0' :: 'x' :: fingerprint_clean)
    | none =>
      if ch.contractConfigured then
        let is_valid := verify_fingerprint ch credential_id_int ('0' :: 'x' :: fingerprint_clean)
        match is_valid with
        | some true =>
          match ch.statusData with
          | some status_data =>
            .chainStatus (if status_data.valid then .VALID else .INVALID)
              status_data.valid status_data.revoked
          | none => .chainNegative .NOT_FOUND
        | some false => .chainNegative .TAMPERED
        | none => .chainNegative .NOT_FOUND
      else .serviceUnavailable

/-- A decoded `CredentialIssued` log as delivered by
`contract.events.CredentialIssued.get_logs` (`args` fields plus log
coordinates; the byte fields already `.hex()`-ed). -/
structure IssuedLog where
  transactionHash : Nat
  blockNumber : Nat
  logIndex : Nat
  credentialId : Nat
  studentWallet : PyStr
  institution : PyStr
  fingerprint : PyStr
  metadataURI : String
  encryptedPayloadURI : String
  expiresAt : Nat
deriving DecidableEq

/-- A decoded `CredentialRevoked` log. -/
structure RevokedLog where
  transactionHash : Nat
  blockNumber : Nat
  logIndex : Nat
  credentialId : Nat
  revokedBy : PyStr
  reasonHash : String
  revokedAt : Nat
deriving DecidableEq

/-- The chain as seen by one indexer run: current head, the logs the node
holds, and whether each `get_logs` query succeeds (`false` models the chain
client raising inside `BlockProofService.get_events`). -/
structure Chain where
  contractConfigured : Bool
  head : Nat
  issuedLogs : List IssuedLog
  revokedLogs : List RevokedLog
  issuedFetchOk : Bool
  revokedFetchOk : Bool
deriving DecidableEq

/-- `BlockProofService.get_events('CredentialIssued', from, to)`
(`blockchain/services.py` lines 439-458): returns `[]` when the contract is
unconfigured, and — crucially — also returns `[]` when the underlying
`get_logs` call raises, because the exception is caught and logged. -/
def get_events_issued (ch : Chain) (from_block to_block : Nat) : List IssuedLog :=
  if !ch.contractConfigured then []
  else if ch.issuedFetchOk then
    ch.issuedLogs.filter (fun l => from_block ≤ l.blockNumber && l.blockNumber ≤ to_block)
  else []

/-- `BlockProofService.get_events('CredentialRevoked', from, to)`. -/
def get_events_revoked (ch : Chain) (from_block to_block : Nat) : List RevokedLog :=
  if !ch.contractConfigured then []
  else if ch.revokedFetchOk then
    ch.revokedLogs.filter (fun l => from_block ≤ l.blockNumber && l.blockNumber ≤ to_block)
  else []

/-- Apply `f` to every row matching `p`, leaving other rows in place. -/
def mapWhere (p : α → Bool) (f : α → α) (rows : List α) : List α :=
  rows.map (fun r => if p r then f r else r)

/-- Django `Model.objects.update_or_create(key, defaults=...)`: if a row with
the key exists, apply the defaults to it in place; otherwise append a freshly
created row. -/
def updateOrCreate (p : α → Bool) (f : α → α) (c : α) (rows : List α) : List α :=
  if rows.any p then mapWhere p f rows else rows ++ [c]

/-- Django `Model.objects.get_or_create(key, defaults=...)`: create only when
the key is absent; an existing row is left untouched. -/
def getOrCreate (p : α → Bool) (c : α) (rows : List α) : List α :=
  if rows.any p then rows else rows ++ [c]

/-- The `CredentialIssuedEvent` row built by
`_process_credential_issued_event` (`blockchain/tasks.py` lines 71-93):
`expires_at` keeps the raw value only when it is positive. -/
def issuedRowOf (log : IssuedLog) : CredentialIssuedEventRow :=
  { transaction_hash := log.transactionHash
    block_number := log.blockNumber
    log_index := log.logIndex
    credential_id := log.credentialId
    student_wallet := log.studentWallet
    institution := log.institution
    fingerprint := log.fingerprint
    metadata_uri := log.metadataURI
    encrypted_payload_uri := log.encryptedPayloadURI
    expires_at := if log.expiresAt > 0 then some log.expiresAt else none
    processed := true }

/-- The `CredentialRevokedEvent` row built by
`_process_credential_revoked_event` (`blockchain/tasks.py` lines 96-115). -/
def revokedRowOf (log : RevokedLog) : CredentialRevokedEventRow :=
  { transaction_hash := log.transactionHash
    block_number := log.blockNumber
    log_index := log.logIndex
    credential_id := log.credentialId
    revoked_by := log.revokedBy
    reason_hash := log.reasonHash
    revoked_at := log.revokedAt
    processed := true }

/-- `_process_credential_issued_event`: upsert the event row keyed by
transaction hash (overwrite-if-exists) and return the stored object. -/
def process_credential_issued_event (log : IssuedLog) (db : DB) :
    CredentialIssuedEventRow × DB :=
  (issuedRowOf log,
   { db with
      issued_events :=
        updateOrCreate (fun r => r.transaction_hash == log.transactionHash)
          (fun r => { issuedRowOf log with transaction_hash := r.transaction_hash })
          (issuedRowOf log) db.issued_events })

/-- `_process_credential_revoked_event`. -/
def process_credential_revoked_event (log : RevokedLog) (db : DB) :
    CredentialRevokedEventRow × DB :=
  (revokedRowOf log,
   { db with
      revoked_events :=
        updateOrCreate (fun r => r.transaction_hash == log.transactionHash)
          (fun r => { revokedRowOf log with transaction_hash := r.transaction_hash })
          (revokedRowOf log) db.revoked_events })

/-- The `defaults=` dict of the `Credential.objects.update_or_create` call in
`sync_credential_issued` (`blockchain/sync_handlers.py` lines 32-43): note
`issued_at` is `event.expires_at if event.expires_at else int(timezone.now().timestamp())`
and `revoked` is unconditionally reset to `False`. -/
def credDefaults (ev : CredentialIssuedEventRow) (now : Nat) (r : CredentialRow) :
    CredentialRow :=
  { r with
    student_wallet := pyLower ev.student_wallet
    institution_address := pyLower ev.institution
    fingerprint := pyLower ev.fingerprint
    metadata_uri := ev.metadata_uri
    encrypted_payload_uri := ev.encrypted_payload_uri
    issued_at := match truthyOpt ev.expires_at with
      | some v => v
      | none => now
    expires_at := truthyOpt ev.expires_at
    revoked := false }

/-- A freshly created `Credential` row before defaults are applied: key plus
the model-level field defaults of `credentials/models.py`. -/
def freshCredential (cid : Nat) : CredentialRow :=
  { credential_id := cid
    student_wallet := []
    institution_address := []
    fingerprint := []
    metadata_uri := ""
    encrypted_payload_uri := ""
    issued_at := 0
    expires_at := none
    revoked := false
    revoked_at := none
    revocation_reason_hash := none
    student_name := ""
    passport_number := ""
    degree_type := ""
    graduation_year := none
    diploma_file_hash := none
    diploma_file_path := none
    transaction_hash := none }

/-- The default `Institution` row created by `sync_credential_issued` when the
event references an unknown institution address. -/
def unknownInstitutionRow (addr : PyStr) (block_number : Nat) : InstitutionRow :=
  { address := addr
    name := "Unknown Institution"
    is_active := true
    created_at := block_number
    last_updated_at := block_number }

/-- `sync_credential_issued` (`blockchain/sync_handlers.py` lines 15-52):
get-or-create the institution by lowercased address, then upsert the
`Credential` row keyed by credential id with `credDefaults`. -/
def sync_credential_issued (ev : CredentialIssuedEventRow) (now : Nat) (db : DB) : DB :=
  let instAddr := pyLower ev.institution
  { db with
    institutions :=
      getOrCreate (fun i => i.address == instAddr)
        (unknownInstitutionRow instAddr ev.block_number) db.institutions
    credentials :=
      updateOrCreate (fun r => r.credential_id == ev.credential_id)
        (credDefaults ev now) (credDefaults ev now (freshCredential ev.credential_id))
        db.credentials }

/-- The field writes of `sync_credential_revoked` on the located credential. -/
def revDefaults (ev : CredentialRevokedEventRow) (r : CredentialRow) : CredentialRow :=
  { r with
    revoked := true
    revoked_at := some ev.revoked_at
    revocation_reason_hash := some ev.reason_hash }

/-- `sync_credential_revoked` (`blockchain/sync_handlers.py` lines 55-70):
locate the credential by id; if absent, log and skip; if present, set
`revoked=True` and the revocation metadata. -/
def sync_credential_revoked (ev : CredentialRevokedEventRow) (db : DB) : DB :=
  if db.credentials.any (fun r => r.credential_id == ev.credential_id) then
    { db with
      credentials :=
        mapWhere (fun r => r.credential_id == ev.credential_id) (revDefaults ev)
          db.credentials }
  else db

/-- One iteration of the issued-events loop of `index_blockchain_events`. -/
def handle_issued_log (now : Nat) (db : DB) (log : IssuedLog) : DB :=
  let p := process_credential_issued_event log db
  sync_credential_issued p.1 now p.2

/-- One iteration of the revoked-events loop of `index_blockchain_events`. -/
def handle_revoked_log (db : DB) (log : RevokedLog) : DB :=
  let p := process_credential_revoked_event log db
  sync_credential_revoked p.1 p.2

/-- The event-processing body of `index_blockchain_events` over the block
range `[from_block, to_block]`: fetch and process all issued logs, then fetch
and process all revoked logs.  This is exactly what a run performs between
reading the checkpoint and advancing it, and what a subsequent run repeats
when the checkpoint was not advanced. -/
def process_range (ch : Chain) (from_block to_block now : Nat) (db : DB) : DB :=
  let issued_events := get_events_issued ch from_block to_block
  let db1 := issued_events.foldl (handle_issued_log now) db
  let revoked_events := get_events_revoked ch from_block to_block
  revoked_events.foldl handle_revoked_log db1

/-- `IndexerState.get_last_block` (`blockchain/models.py` lines 57-60):
`get_or_create` the checkpoint row (default 0) and return its value. -/
def get_last_block (db : DB) (key : String) : Nat × DB :=
  match db.indexer_state.find? (fun pr => pr.1 == key) with
  | some pr => (pr.2, db)
  | none => (0, { db with indexer_state := db.indexer_state ++ [(key, 0)] })

/-- `IndexerState.update_last_block` (`blockchain/models.py` lines 62-67). -/
def update_last_block (db : DB) (key : String) (block_number : Nat) : DB :=
  if db.indexer_state.any (fun pr => pr.1 == key) then
    { db with
      indexer_state :=
        db.indexer_state.map (fun pr => if pr.1 == key then (pr.1, block_number) else pr) }
  else { db with indexer_state := db.indexer_state ++ [(key, block_number)] }

/-- The stored checkpoint value for a stream key (0 when the row is absent,
matching `get_last_block`'s default). -/
def checkpoint_value (db : DB) (key : String) : Nat :=
  ((db.indexer_state.find? (fun pr => pr.1 == key)).map Prod.snd).getD 0

/-- `index_blockchain_events` (`blockchain/tasks.py` lines 20-68): one
scheduled indexer run.  `now` is the wall clock the sync handlers read.
Nothing inside the `try` block can raise in this model because
`get_events`, `_process_*` and `sync_*` all catch their own exceptions, so
the checkpoint update at the end of the `try` block always executes once the
range check passes. -/
def index_blockchain_events (batch_size : Nat) (ch : Chain) (now : Nat) (db : DB) : DB :=
  if !ch.contractConfigured then db
  else
    let lb := get_last_block db "credential_events"
    let last_block := lb.1
    let db1 := lb.2
    let current_block := ch.head
    let to_block := min (last_block + batch_size) current_block
    if to_block ≤ last_block then db1
    else
      update_last_block (process_range ch (last_block + 1) to_block now db1)
        "credential_events" to_block

/-- The kinds of transaction `BlockProofService.issue_credential` can send. -/
inductive TxKind where
  | setRegistrar
  | upsertInstitution
  | setInstitutionController
  | issueCredential
deriving DecidableEq

/-- The preflight reads `BlockProofService.issue_credential` performs before
sending transactions (`blockchain/services.py` lines 258-345): institution
existence/activity, issuance capability, super-admin identity, registrar
status, and the re-checked capability after the first two bootstrap steps. -/
structure IssuePreflight where
  instExists : Bool
  instIsActive : Bool
  canIssue : Bool
  isSuperAdmin : Bool
  isRegistrar : Bool
  canIssueAfterBootstrap : Bool
deriving DecidableEq

/-- The sequence of transactions `issue_credential` sends, in order
(`blockchain/services.py` lines 280-372): up to three gated bootstrap
transactions, then the issuance transaction itself. -/
def issue_credential_plan (p : IssuePreflight) : List TxKind :=
  (if !p.instExists || !p.instIsActive || !p.canIssue then
    if p.isSuperAdmin then
      (if !p.isRegistrar then [.setRegistrar] else []) ++
      (if !p.instExists || !p.instIsActive then [.upsertInstitution] else []) ++
      (if !p.canIssueAfterBootstrap then [.setInstitutionController] else [])
    else []
  else []) ++ [.issueCredential]

/-- The `'nonce': next_nonce` / `next_nonce += 1` discipline: each sent
transaction consumes the current counter value, which is then incremented. -/
def assignNonces : List TxKind → Nat → List (TxKind × Nat)
  | [], _ => []
  | t :: ts, next_nonce => (t, next_nonce) :: assignNonces ts (next_nonce + 1)

/-- The full transaction/nonce sequence of one `issue_credential` call:
the pending-transaction count is read once
(`next_nonce = self.w3.eth.get_transaction_count(sender, 'pending')`) and
threaded through `assignNonces`, never re-queried. -/
def issue_credential_txs (p : IssuePreflight) (pending_count : Nat) : List (TxKind × Nat) :=
  assignNonces (issue_credential_plan p) pending_count

/-- The hexadecimal digit alphabet (both cases). -/
def hexDigits : PyStr :=
  ['0', '1', '2', '3', '4'] ++ ['5', '6', '7', '8', '9'] ++
    ['a', 'b', 'c', 'd', 'e', 'f'] ++ ['A', 'B', 'C', 'D', 'E', 'F']

/-- The 0-, 1- and 2-fold `0x`/`0X` prefix combinations of the normalization
round-trip property. -/
def zeroXCombos : List PyStr :=
  [[], ['0', 'x'], ['0', 'X'],
   ['0', 'x', '0', 'x'], ['0', 'x', '0', 'X'],
   ['0', 'X', '0', 'x'], ['0', 'X', '0', 'X']]

/-- The credential-id column of the credentials table. -/
def credKeys (rows : List CredentialRow) : List Nat :=
  rows.map CredentialRow.credential_id

/-- Concrete fingerprint: 64 `a` characters. -/
def fp_a : PyStr := List.replicate 64 'a'

/-- Sample institution row for concrete scenarios. -/
def sampleInstitution : InstitutionRow :=
  { address := ['0', 'x', '1'], name := "Test University", is_active := true,
    created_at := 0, last_updated_at := 0 }

/-- A cached, revoked credential with id 7. -/
def revokedCredential7 : CredentialRow :=
  { freshCredential 7 with
    fingerprint := '0' :: 'x' :: fp_a
    revoked := true
    revoked_at := some 1000
    revocation_reason_hash := some "0xdeadbeef" }

/-- A `CredentialIssued` log for credential 7 carrying no expiry. -/
def issuedLog7 : IssuedLog :=
  { transactionHash := 77, blockNumber := 15, logIndex := 0, credentialId := 7,
    studentWallet := ['0', 'x', 'A', 'B'], institution := ['0', 'x', 'C', 'D'],
    fingerprint := fp_a, metadataURI := "ipfs://meta", encryptedPayloadURI := "ipfs://enc",
    expiresAt := 0 }

/-- The event row the indexer stores for `issuedLog7`. -/
def issuedEvent7 : CredentialIssuedEventRow := issuedRowOf issuedLog7

/-- Store holding only the revoked credential 7. -/
def dbRevoked7 : DB :=
  { issued_events := [], revoked_events := [], institutions := [sampleInstitution],
    credentials := [revokedCredential7], indexer_state := [] }

/-- Empty store. -/
def dbEmpty : DB :=
  { issued_events := [], revoked_events := [], institutions := [], credentials := [],
    indexer_state := [] }

/-- Store whose `credential_events` checkpoint is 10. -/
def dbCkpt10 : DB := { dbEmpty with indexer_state := [("credential_events", 10)] }

/-- A chain at head 20 holding one issuance log in (10, 20], whose log queries
raise (RPC failure): `get_events` catches the exception and returns `[]`. -/
def chainDown : Chain :=
  { contractConfigured := true, head := 20, issuedLogs := [issuedLog7], revokedLogs := [],
    issuedFetchOk := false, revokedFetchOk := false }

/-- The same chain with healthy log queries. -/
def chainUp : Chain := { chainDown with issuedFetchOk := true, revokedFetchOk := true }

/-- A `CredentialIssued` log for credential 9 carrying a positive expiry. -/
def issuedLog9 : IssuedLog :=
  { issuedLog7 with
    transactionHash := 99
    credentialId := 9
    blockNumber := 16
    expiresAt := 5000 }

/-- A chain at head 20 holding one expiring issuance log, healthy queries. -/
def chainOneExpiring : Chain := { chainUp with issuedLogs := [issuedLog9] }

/-- A chain at head 5 (behind the checkpoint of `dbCkpt10`), healthy queries. -/
def chainShort : Chain := { chainUp with head := 5 }

/-- Chain-client state for verification: the read-only call errors. -/
def chainErr : VerifyChain :=
  { contractConfigured := true, callResult := none, statusData := none }

/-- Chain-client state for verification: service/contract not configured. -/
def chainOff : VerifyChain :=
  { contractConfigured := false, callResult := none, statusData := none }

/-- A cached, unrevoked, non-expiring credential with id 1 and fingerprint
`0x` + 64 `a`. -/
def cachedCredential1 : CredentialRow :=
  { freshCredential 1 with fingerprint := '0' :: 'x' :: fp_a }

/-- Store holding only `cachedCredential1`. -/
def dbCached1 : DB := { dbEmpty with credentials := [cachedCredential1] }

/-- Preflight state in which all three bootstrap transactions are required:
institution missing, signer is super-admin but not yet registrar, and the
capability re-check still fails after institution upsert. -/
def preflightAllBootstrap : IssuePreflight :=
  { instExists := false, instIsActive := false, canIssue := false,
    isSuperAdmin := true, isRegistrar := false, canIssueAfterBootstrap := false }

/-- Insert a key at the end unless already present (the key-level shadow of a
keyed upsert). -/
def keyInsert (ks : List Nat) (k : Nat) : List Nat :=
  if k ∈ ks then ks else ks ++ [k]

/-- The issued-event-table effect of processing one issued log. -/
def issuedEventStep (rows : List CredentialIssuedEventRow) (log : IssuedLog) :
    List CredentialIssuedEventRow :=
  updateOrCreate (fun r => r.transaction_hash == log.transactionHash)
    (fun r => { issuedRowOf log with transaction_hash := r.transaction_hash })
    (issuedRowOf log) rows

/-- The revoked-event-table effect of processing one revoked log. -/
def revokedEventStep (rows : List CredentialRevokedEventRow) (log : RevokedLog) :
    List CredentialRevokedEventRow :=
  updateOrCreate (fun r => r.transaction_hash == log.transactionHash)
    (fun r => { revokedRowOf log with transaction_hash := r.transaction_hash })
    (revokedRowOf log) rows

/-- The institutions-table effect of processing one issued log. -/
def institutionStep (rows : List InstitutionRow) (log : IssuedLog) : List InstitutionRow :=
  getOrCreate (fun i => i.address == pyLower log.institution)
    (unknownInstitutionRow (pyLower log.institution) log.blockNumber) rows

/-- The credentials-table effect of processing one issued log. -/
def credIssuedStep (now : Nat) (rows : List CredentialRow) (log : IssuedLog) :
    List CredentialRow :=
  updateOrCreate (fun r => r.credential_id == log.credentialId)
    (credDefaults (issuedRowOf log) now)
    (credDefaults (issuedRowOf log) now (freshCredential log.credentialId)) rows

/-- The credentials-table effect of processing one revoked log. -/
def credRevokedStep (rows : List CredentialRow) (log : RevokedLog) : List CredentialRow :=
  if rows.any (fun r => r.credential_id == (revokedRowOf log).credential_id) then
    mapWhere (fun r => r.credential_id == (revokedRowOf log).credential_id)
      (revDefaults (revokedRowOf log)) rows
  else rows

/-! ## Helper lemmas on lists and upserts -/

theorem map_eq_self_of_fix {α : Type} (g : α → α) (l : List α)
    (h : ∀ r ∈ l, g r = r) : l.map g = l := by
  induction l with
  | nil => rfl
  | cons a t ih =>
    simp only [List.map_cons]
    rw [h a (List.mem_cons_self a t), ih (fun r hr => h r (List.mem_cons_of_mem a hr))]

theorem find?_map_comm {α : Type} (g : α → α) (q : α → Bool) (l : List α)
    (h : ∀ r, q (g r) = q r) : (l.map g).find? q = (l.find? q).map g := by
  induction l with
  | nil => rfl
  | cons a t ih =>
    by_cases hqa : q a
    · rw [List.map_cons, List.find?_cons_of_pos _ (by rw [h a]; exact hqa),
        List.find?_cons_of_pos _ hqa, Option.map_some']
    · rw [List.map_cons, List.find?_cons_of_neg _ (by rw [h a]; exact Bool.not_eq_true _ ▸ (by simpa using hqa)),
        List.find?_cons_of_neg _ (by simpa using hqa), ih]

theorem find?_append_of_none {α : Type} (l1 l2 : List α) (q : α → Bool)
    (h : l1.find? q = none) : (l1 ++ l2).find? q = l2.find? q := by
  induction l1 with
  | nil => rfl
  | cons a t ih =>
    by_cases hqa : q a
    · rw [List.find?_cons_of_pos _ hqa] at h; exact absurd h (by simp)
    · rw [List.find?_cons_of_neg _ (by simpa using hqa)] at h
      rw [List.cons_append, List.find?_cons_of_neg _ (by simpa using hqa)]
      exact ih h

theorem find?_append_of_some {α : Type} (l1 l2 : List α) (q : α → Bool) (a : α)
    (h : l1.find? q = some a) : (l1 ++ l2).find? q = some a := by
  induction l1 with
  | nil => exact absurd h (by simp)
  | cons b t ih =>
    by_cases hqb : q b
    · rw [List.find?_cons_of_pos _ hqb] at h
      rw [List.cons_append, List.find?_cons_of_pos _ hqb]; exact h
    · rw [List.find?_cons_of_neg _ (by simpa using hqb)] at h
      rw [List.cons_append, List.find?_cons_of_neg _ (by simpa using hqb)]
      exact ih h

theorem find?_eq_none_of_all {α : Type} (l : List α) (q : α → Bool)
    (h : ∀ r ∈ l, q r = false) : l.find? q = none := by
  induction l with
  | nil => rfl
  | cons a t ih =>
    rw [List.find?_cons_of_neg _ (by rw [h a (List.mem_cons_self a t)]; simp)]
    exact ih (fun r hr => h r (List.mem_cons_of_mem a hr))

theorem any_eq_false_all {α : Type} (l : List α) (q : α → Bool)
    (h : l.any q = false) : ∀ r ∈ l, q r = false := by
  intro r hr
  by_contra hq
  have : l.any q = true := List.any_eq_true.mpr ⟨r, hr, by simpa using hq⟩
  rw [this] at h; cases h

theorem any_of_mem_true {α : Type} (l : List α) (q : α → Bool) (r : α)
    (hr : r ∈ l) (h : q r = true) : l.any q = true :=
  List.any_eq_true.mpr ⟨r, hr, h⟩

theorem any_beq_iff_mem_keys {α : Type} (kf : α → Nat) (k : Nat) (l : List α) :
    l.any (fun r => kf r == k) = true ↔ k ∈ l.map kf := by
  rw [List.any_eq_true]
  constructor
  · rintro ⟨r, hr, hk⟩
    exact List.mem_map.mpr ⟨r, hr, (Nat.beq_eq.mp (by simpa using hk)).symm ▸ rfl⟩
  · intro hm
    obtain ⟨r, hr, hk⟩ := List.mem_map.mp hm
    exact ⟨r, hr, by simp [hk]⟩

/-- `find?` of a keyed `updateOrCreate` at the written key: the stored row is
the updated existing row, or the created row. -/
theorem find?_updateOrCreate {α : Type} (kf : α → Nat) (k : Nat) (f : α → α) (c : α)
    (rows : List α) (hkc : kf c = k) (hkf : ∀ r, kf (f r) = kf r) :
    (updateOrCreate (fun r => kf r == k) f c rows).find? (fun r => kf r == k) =
      some (((rows.find? (fun r => kf r == k)).elim c f)) := by
  unfold updateOrCreate mapWhere
  by_cases hany : rows.any (fun r => kf r == k) = true
  · rw [if_pos hany]
    rw [find?_map_comm _ (fun r => kf r == k) rows (fun r => by
      cases hp : (kf r == k) <;> simp [hp, hkf])]
    rcases hf : rows.find? (fun r => kf r == k) with _ | r
    · obtain ⟨r0, hr0, hp0⟩ := List.any_eq_true.mp hany
      exact absurd hp0 (by simpa using List.find?_eq_none.mp hf r0 hr0)
    · have hp := List.find?_some hf
      simp only [] at hp
      simp [eq_of_beq hp]
  · rw [if_neg hany]
    have hnone : rows.find? (fun r => kf r == k) = none :=
      find?_eq_none_of_all _ _ (any_eq_false_all _ _ (by simpa using hany))
    rw [find?_append_of_none _ _ _ hnone, hnone]
    simp [List.find?, hkc]

theorem find?_map_of_fix {α : Type} (g : α → α) (q : α → Bool) (l : List α)
    (h1 : ∀ r, q (g r) = q r) (h2 : ∀ r, q r = true → g r = r) :
    (l.map g).find? q = l.find? q := by
  rw [find?_map_comm g q l h1]
  rcases hf : l.find? q with _ | r
  · rfl
  · rw [Option.map_some', h2 r (List.find?_some hf)]

/-- `find?` of a keyed `updateOrCreate` at a different key is unchanged. -/
theorem find?_updateOrCreate_other {α : Type} (kf : α → Nat) (k k' : Nat) (f : α → α)
    (c : α) (rows : List α) (hkc : kf c = k) (hkf : ∀ r, kf (f r) = kf r)
    (hne : k' ≠ k) :
    (updateOrCreate (fun r => kf r == k) f c rows).find? (fun r => kf r == k') =
      rows.find? (fun r => kf r == k') := by
  unfold updateOrCreate mapWhere
  by_cases hany : rows.any (fun r => kf r == k) = true
  · rw [if_pos hany]
    refine find?_map_of_fix _ _ _ (fun r => ?_) (fun r hq => ?_)
    · cases hp : (kf r == k) <;> simp [hp, hkf]
    · have hne2 : (kf r == k) = false := by
        cases hb : (kf r == k)
        · rfl
        · exact absurd (eq_of_beq hb ▸ eq_of_beq hq : k = k') (fun h => hne h.symm)
      simp [hne2]
  · rw [if_neg hany]
    rcases hf : rows.find? (fun r => kf r == k') with _ | r
    · rw [find?_append_of_none _ _ _ hf]
      have hne2 : (kf c == k') = false := by
        cases hb : (kf c == k')
        · rfl
        · exact absurd (hkc ▸ eq_of_beq hb : k = k') (fun h => hne h.symm)
      simp [List.find?, hne2]
    · exact find?_append_of_some _ _ _ _ hf

theorem find?_mapWhere_self {α : Type} (kf : α → Nat) (k : Nat) (f : α → α)
    (rows : List α) (hkf : ∀ r, kf (f r) = kf r) :
    (mapWhere (fun r => kf r == k) f rows).find? (fun r => kf r == k) =
      (rows.find? (fun r => kf r == k)).map
        (fun r => if (kf r == k) = true then f r else r) := by
  unfold mapWhere
  exact find?_map_comm _ _ _ (fun r => by cases hp : (kf r == k) <;> simp [hp, hkf])

theorem find?_mapWhere_other {α : Type} (kf : α → Nat) (k k' : Nat) (f : α → α)
    (rows : List α) (hkf : ∀ r, kf (f r) = kf r) (hne : k' ≠ k) :
    (mapWhere (fun r => kf r == k) f rows).find? (fun r => kf r == k') =
      rows.find? (fun r => kf r == k') := by
  unfold mapWhere
  refine find?_map_of_fix _ _ _ (fun r => ?_) (fun r hq => ?_)
  · cases hp : (kf r == k) <;> simp [hp, hkf]
  · have hne2 : (kf r == k) = false := by
      cases hb : (kf r == k)
      · rfl
      · exact absurd (eq_of_beq hb ▸ eq_of_beq hq : k = k') (fun h => hne h.symm)
    simp [hne2]

theorem keys_mapWhere {α : Type} (kf : α → Nat) (p : α → Bool) (f : α → α)
    (rows : List α) (hkf : ∀ r, kf (f r) = kf r) :
    (mapWhere p f rows).map kf = rows.map kf := by
  unfold mapWhere
  induction rows with
  | nil => rfl
  | cons a t ih =>
    simp only [List.map_cons]
    rw [ih]
    by_cases hp : p a = true
    · simp [hp, hkf]
    · simp [hp]

theorem keys_updateOrCreate {α : Type} (kf : α → Nat) (k : Nat) (f : α → α) (c : α)
    (rows : List α) (hkc : kf c = k) (hkf : ∀ r, kf (f r) = kf r) :
    (updateOrCreate (fun r => kf r == k) f c rows).map kf =
      keyInsert (rows.map kf) k := by
  unfold updateOrCreate keyInsert
  by_cases hany : rows.any (fun r => kf r == k) = true
  · rw [if_pos hany, if_pos ((any_beq_iff_mem_keys kf k rows).mp hany)]
    exact keys_mapWhere kf _ f rows hkf
  · rw [if_neg hany, if_neg (fun hm => hany ((any_beq_iff_mem_keys kf k rows).mpr hm))]
    simp [hkc]

theorem keys_getOrCreate {α : Type} (kf : α → Nat) (p : α → Bool) (c : α)
    (rows : List α) : (getOrCreate p c rows).map kf =
      if rows.any p = true then rows.map kf else rows.map kf ++ [kf c] := by
  unfold getOrCreate
  by_cases hany : rows.any p = true
  · rw [if_pos hany, if_pos hany]
  · rw [if_neg hany, if_neg hany]; simp

theorem keyInsert_self_mem (ks : List Nat) (k : Nat) : k ∈ keyInsert ks k := by
  unfold keyInsert
  by_cases h : k ∈ ks
  · rw [if_pos h]; exact h
  · rw [if_neg h]; simp

theorem keyInsert_mem_mono (ks : List Nat) (k k' : Nat) (h : k' ∈ ks) :
    k' ∈ keyInsert ks k := by
  unfold keyInsert
  by_cases hm : k ∈ ks
  · rw [if_pos hm]; exact h
  · rw [if_neg hm]; exact List.mem_append_left _ h

theorem keyInsert_nodup (ks : List Nat) (k : Nat) (h : ks.Nodup) :
    (keyInsert ks k).Nodup := by
  unfold keyInsert
  by_cases hm : k ∈ ks
  · rw [if_pos hm]; exact h
  · rw [if_neg hm]
    refine List.Nodup.append h (List.nodup_singleton k) ?_
    intro a ha hb
    rw [List.mem_singleton] at hb
    exact hm (hb ▸ ha)

theorem keyInsert_of_mem (ks : List Nat) (k : Nat) (h : k ∈ ks) :
    keyInsert ks k = ks := by
  unfold keyInsert
  rw [if_pos h]

theorem find?_mapWhere_self_map {α : Type} (kf : α → Nat) (k : Nat) (f : α → α)
    (rows : List α) (hkf : ∀ r, kf (f r) = kf r) :
    (mapWhere (fun r => kf r == k) f rows).find? (fun r => kf r == k) =
      (rows.find? (fun r => kf r == k)).map f := by
  rw [find?_mapWhere_self kf k f rows hkf]
  rcases hf : rows.find? (fun r => kf r == k) with _ | r
  · rfl
  · have hp := List.find?_some hf
    simp only [] at hp
    simp [eq_of_beq hp]

theorem find?_foldUOC_not_mem {α σ : Type} (kf : α → Nat) (key : σ → Nat)
    (fl : σ → α → α) (cl : σ → α) (specs : List σ) (rows : List α) (k : Nat)
    (hkc : ∀ s, kf (cl s) = key s) (hkf : ∀ s r, kf (fl s r) = kf r)
    (hk : k ∉ specs.map key) :
    (specs.foldl
        (fun rs s => updateOrCreate (fun r => kf r == key s) (fl s) (cl s) rs)
        rows).find? (fun r => kf r == k) =
      rows.find? (fun r => kf r == k) := by
  induction specs generalizing rows with
  | nil => rfl
  | cons s t ih =>
    rw [List.foldl_cons]
    rw [ih _ (fun h => hk (by simp [h]))]
    exact find?_updateOrCreate_other kf (key s) k (fl s) (cl s) rows (hkc s) (hkf s)
      (fun h => hk (by simp [h]))

theorem find?_foldUOC_mem {α σ : Type} (kf : α → Nat) (key : σ → Nat)
    (fl : σ → α → α) (cl : σ → α) (specs : List σ) (rows : List α) (s0 : σ)
    (hkc : ∀ s, kf (cl s) = key s) (hkf : ∀ s r, kf (fl s r) = kf r)
    (hnd : (specs.map key).Nodup) (hs : s0 ∈ specs) :
    (specs.foldl
        (fun rs s => updateOrCreate (fun r => kf r == key s) (fl s) (cl s) rs)
        rows).find? (fun r => kf r == key s0) =
      some ((rows.find? (fun r => kf r == key s0)).elim (cl s0) (fl s0)) := by
  induction specs generalizing rows with
  | nil => cases hs
  | cons s t ih =>
    rw [List.foldl_cons]
    have hnd2 : (key s ∉ t.map key) ∧ (t.map key).Nodup := by
      simpa [List.nodup_cons] using hnd
    rcases List.mem_cons.mp hs with heq | hmem
    · subst heq
      rw [find?_foldUOC_not_mem kf key fl cl t _ _ hkc hkf hnd2.1]
      exact find?_updateOrCreate kf (key s0) (fl s0) (cl s0) rows (hkc s0) (hkf s0)
    · have hne : key s0 ≠ key s := by
        intro h
        exact hnd2.1 (h ▸ List.mem_map_of_mem key hmem)
      rw [ih _ hnd2.2 hmem]
      rw [find?_updateOrCreate_other kf (key s) (key s0) (fl s) (cl s) rows (hkc s)
        (hkf s) hne]

theorem keys_foldUOC {α σ : Type} (kf : α → Nat) (key : σ → Nat)
    (fl : σ → α → α) (cl : σ → α) (specs : List σ) (rows : List α)
    (hkc : ∀ s, kf (cl s) = key s) (hkf : ∀ s r, kf (fl s r) = kf r) :
    (specs.foldl
        (fun rs s => updateOrCreate (fun r => kf r == key s) (fl s) (cl s) rs)
        rows).map kf =
      specs.foldl (fun ks s => keyInsert ks (key s)) (rows.map kf) := by
  induction specs generalizing rows with
  | nil => rfl
  | cons s t ih =>
    rw [List.foldl_cons, List.foldl_cons, ih _,
      keys_updateOrCreate kf (key s) (fl s) (cl s) rows (hkc s) (hkf s)]

theorem keysFold_mem_mono (key : σ → Nat) (specs : List σ) (ks : List Nat) (k : Nat)
    (h : k ∈ ks) : k ∈ specs.foldl (fun ks s => keyInsert ks (key s)) ks := by
  induction specs generalizing ks with
  | nil => exact h
  | cons s t ih => exact ih _ (keyInsert_mem_mono ks (key s) k h)

theorem keysFold_mem_establish (key : σ → Nat) (specs : List σ) (ks : List Nat)
    (s0 : σ) (hs : s0 ∈ specs) :
    key s0 ∈ specs.foldl (fun ks s => keyInsert ks (key s)) ks := by
  induction specs generalizing ks with
  | nil => cases hs
  | cons s t ih =>
    rw [List.foldl_cons]
    rcases List.mem_cons.mp hs with heq | hmem
    · subst heq
      exact keysFold_mem_mono key t _ _ (keyInsert_self_mem ks (key s0))
    · exact ih _ hmem

theorem keysFold_absorb (key : σ → Nat) (specs : List σ) (ks : List Nat)
    (h : ∀ s ∈ specs, key s ∈ ks) :
    specs.foldl (fun ks s => keyInsert ks (key s)) ks = ks := by
  induction specs with
  | nil => rfl
  | cons s t ih =>
    rw [List.foldl_cons, keyInsert_of_mem ks (key s) (h s (List.mem_cons_self s t))]
    exact ih (fun s2 hs2 => h s2 (List.mem_cons_of_mem s hs2))

theorem keysFold_nodup (key : σ → Nat) (specs : List σ) (ks : List Nat)
    (h : ks.Nodup) :
    (specs.foldl (fun ks s => keyInsert ks (key s)) ks).Nodup := by
  induction specs generalizing ks with
  | nil => exact h
  | cons s t ih => exact ih _ (keyInsert_nodup ks (key s) h)

theorem find?_foldMW_not_mem {α σ : Type} (kf : α → Nat) (key : σ → Nat)
    (gl : σ → α → α) (specs : List σ) (rows : List α) (k : Nat)
    (hkg : ∀ s r, kf (gl s r) = kf r) (hk : k ∉ specs.map key) :
    (specs.foldl (fun rs s => mapWhere (fun r => kf r == key s) (gl s) rs)
        rows).find? (fun r => kf r == k) =
      rows.find? (fun r => kf r == k) := by
  induction specs generalizing rows with
  | nil => rfl
  | cons s t ih =>
    rw [List.foldl_cons]
    rw [ih _ (fun h => hk (by simp [h]))]
    exact find?_mapWhere_other kf (key s) k (gl s) rows (hkg s)
      (fun h => hk (by simp [h]))

theorem find?_foldMW_mem {α σ : Type} (kf : α → Nat) (key : σ → Nat)
    (gl : σ → α → α) (specs : List σ) (rows : List α) (s0 : σ)
    (hkg : ∀ s r, kf (gl s r) = kf r) (hnd : (specs.map key).Nodup)
    (hs : s0 ∈ specs) :
    (specs.foldl (fun rs s => mapWhere (fun r => kf r == key s) (gl s) rs)
        rows).find? (fun r => kf r == key s0) =
      (rows.find? (fun r => kf r == key s0)).map (gl s0) := by
  induction specs generalizing rows with
  | nil => cases hs
  | cons s t ih =>
    rw [List.foldl_cons]
    have hnd2 : (key s ∉ t.map key) ∧ (t.map key).Nodup := by
      simpa [List.nodup_cons] using hnd
    rcases List.mem_cons.mp hs with heq | hmem
    · subst heq
      rw [find?_foldMW_not_mem kf key gl t _ _ hkg hnd2.1]
      exact find?_mapWhere_self_map kf (key s0) (gl s0) rows (hkg s0)
    · have hne : key s0 ≠ key s := by
        intro h
        exact hnd2.1 (h ▸ List.mem_map_of_mem key hmem)
      rw [ih _ hnd2.2 hmem]
      rw [find?_mapWhere_other kf (key s) (key s0) (gl s) rows (hkg s) hne]

theorem keys_foldMW {α σ : Type} (kf : α → Nat) (key : σ → Nat)
    (gl : σ → α → α) (specs : List σ) (rows : List α)
    (hkg : ∀ s r, kf (gl s r) = kf r) :
    (specs.foldl (fun rs s => mapWhere (fun r => kf r == key s) (gl s) rs)
        rows).map kf = rows.map kf := by
  induction specs generalizing rows with
  | nil => rfl
  | cons s t ih =>
    rw [List.foldl_cons, ih _, keys_mapWhere kf _ (gl s) rows (hkg s)]

theorem list_eq_of_keys_and_find {α : Type} (kf : α → Nat) (xs ys : List α)
    (hk : xs.map kf = ys.map kf) (hnd : (xs.map kf).Nodup)
    (hf : ∀ k, xs.find? (fun r => kf r == k) = ys.find? (fun r => kf r == k)) :
    xs = ys := by
  induction xs generalizing ys with
  | nil =>
    cases ys with
    | nil => rfl
    | cons y yt => simp at hk
  | cons x xt ih =>
    cases ys with
    | nil => simp at hk
    | cons y yt =>
      simp only [List.map_cons, List.cons.injEq] at hk
      have hxy : x = y := by
        have h1 := hf (kf x)
        rw [List.find?_cons_of_pos _ (by simp), List.find?_cons_of_pos _ (by simp [hk.1])] at h1
        injection h1
      subst hxy
      have hnd2 : (kf x ∉ xt.map kf) ∧ (xt.map kf).Nodup := by
        simpa [List.nodup_cons] using hnd
      refine congrArg (x :: ·) (ih yt hk.2 hnd2.2 (fun k => ?_))
      by_cases hkx : k = kf x
      · subst hkx
        have hx0 : xt.find? (fun r => kf r == kf x) = none :=
          find?_eq_none_of_all _ _ (fun r hr => by
            cases hb : (kf r == kf x)
            · rfl
            · exact absurd (eq_of_beq hb ▸ List.mem_map_of_mem kf hr) hnd2.1)
        have hy0 : yt.find? (fun r => kf r == kf x) = none :=
          find?_eq_none_of_all _ _ (fun r hr => by
            cases hb : (kf r == kf x)
            · rfl
            · have hmem : kf r ∈ yt.map kf := List.mem_map_of_mem kf hr
              rw [← hk.2] at hmem
              exact absurd (eq_of_beq hb ▸ hmem) hnd2.1)
        rw [hx0, hy0]
      · have hne : ¬ ((kf x == k) = true) := by
          simp only [beq_iff_eq]
          exact fun h => hkx h.symm
        have h1 := hf k
        have e1 : List.find? (fun r => kf r == k) (x :: xt) =
            List.find? (fun r => kf r == k) xt := List.find?_cons_of_neg xt hne
        have e2 : List.find? (fun r => kf r == k) (x :: yt) =
            List.find? (fun r => kf r == k) yt := List.find?_cons_of_neg yt hne
        rw [e1, e2] at h1
        exact h1

theorem DB_eq_of_fields {x y : DB} (h1 : x.issued_events = y.issued_events)
    (h2 : x.revoked_events = y.revoked_events) (h3 : x.institutions = y.institutions)
    (h4 : x.credentials = y.credentials) (h5 : x.indexer_state = y.indexer_state) :
    x = y := by
  cases x; cases y
  simp_all

theorem foldl_handle_issued_components (now : Nat) (logs : List IssuedLog) (db : DB) :
    logs.foldl (handle_issued_log now) db =
      { issued_events := logs.foldl issuedEventStep db.issued_events
        revoked_events := db.revoked_events
        institutions := logs.foldl institutionStep db.institutions
        credentials := logs.foldl (credIssuedStep now) db.credentials
        indexer_state := db.indexer_state } := by
  induction logs generalizing db with
  | nil => rfl
  | cons l t ih =>
    rw [List.foldl_cons, ih]
    rfl

theorem handle_revoked_log_eq (db : DB) (log : RevokedLog) :
    handle_revoked_log db log =
      { db with
        revoked_events := revokedEventStep db.revoked_events log
        credentials := credRevokedStep db.credentials log } := by
  simp only [handle_revoked_log, process_credential_revoked_event, sync_credential_revoked,
    credRevokedStep, revokedEventStep]
  by_cases h :
      db.credentials.any (fun r => r.credential_id == (revokedRowOf log).credential_id) = true
  · rw [if_pos h, if_pos h]
  · rw [if_neg h, if_neg h]

theorem foldl_handle_revoked_components (logs : List RevokedLog) (db : DB) :
    logs.foldl handle_revoked_log db =
      { issued_events := db.issued_events
        revoked_events := logs.foldl revokedEventStep db.revoked_events
        institutions := db.institutions
        credentials := logs.foldl credRevokedStep db.credentials
        indexer_state := db.indexer_state } := by
  induction logs generalizing db with
  | nil => rfl
  | cons l t ih =>
    rw [List.foldl_cons, handle_revoked_log_eq, ih]
    rfl

theorem process_range_components (ch : Chain) (from_block to_block now : Nat) (db : DB) :
    process_range ch from_block to_block now db =
      { issued_events :=
          (get_events_issued ch from_block to_block).foldl issuedEventStep db.issued_events
        revoked_events :=
          (get_events_revoked ch from_block to_block).foldl revokedEventStep db.revoked_events
        institutions :=
          (get_events_issued ch from_block to_block).foldl institutionStep db.institutions
        credentials :=
          (get_events_revoked ch from_block to_block).foldl credRevokedStep
            ((get_events_issued ch from_block to_block).foldl (credIssuedStep now)
              db.credentials)
        indexer_state := db.indexer_state } := by
  simp only [process_range]
  rw [foldl_handle_issued_components, foldl_handle_revoked_components]

theorem credDefaults_idem (ev : CredentialIssuedEventRow) (t : Nat) (r : CredentialRow) :
    credDefaults ev t (credDefaults ev t r) = credDefaults ev t r := rfl

theorem credDefaults_key (ev : CredentialIssuedEventRow) (t : Nat) (r : CredentialRow) :
    (credDefaults ev t r).credential_id = r.credential_id := rfl

theorem revDefaults_idem (ev : CredentialRevokedEventRow) (r : CredentialRow) :
    revDefaults ev (revDefaults ev r) = revDefaults ev r := rfl

theorem revDefaults_key (ev : CredentialRevokedEventRow) (r : CredentialRow) :
    (revDefaults ev r).credential_id = r.credential_id := rfl

theorem rev_iss_rev_absorb (evI : CredentialIssuedEventRow) (t : Nat)
    (evR : CredentialRevokedEventRow) (r : CredentialRow) :
    revDefaults evR (credDefaults evI t (revDefaults evR r)) =
      revDefaults evR (credDefaults evI t r) := rfl

theorem foldl_congr_of_steps {β σ : Type} (step1 step2 : β → σ → β) (specs : List σ)
    (b : β) (h : ∀ x s, s ∈ specs → step1 x s = step2 x s) :
    specs.foldl step1 b = specs.foldl step2 b := by
  induction specs generalizing b with
  | nil => rfl
  | cons s t ih =>
    rw [List.foldl_cons, List.foldl_cons, h b s (List.mem_cons_self s t)]
    exact ih _ (fun x s2 hs2 => h x s2 (List.mem_cons_of_mem s hs2))

theorem credIssuedStep_time_indep (t1 t2 : Nat) (rows : List CredentialRow)
    (log : IssuedLog) (h : log.expiresAt ≠ 0) :
    credIssuedStep t2 rows log = credIssuedStep t1 rows log := by
  unfold credIssuedStep
  have hd : credDefaults (issuedRowOf log) t2 = credDefaults (issuedRowOf log) t1 := by
    funext r
    unfold credDefaults issuedRowOf truthyOpt
    simp [Nat.pos_of_ne_zero h, h]
  rw [hd]

theorem foldUOC_idem {α σ : Type} (kf : α → Nat) (key : σ → Nat)
    (fl : σ → α → α) (cl : σ → α) (specs : List σ) (rows : List α)
    (hkc : ∀ s, kf (cl s) = key s) (hkf : ∀ s r, kf (fl s r) = kf r)
    (hff : ∀ s r, fl s (fl s r) = fl s r) (hfc : ∀ s, fl s (cl s) = cl s)
    (hnd : (specs.map key).Nodup) (hrows : (rows.map kf).Nodup) :
    specs.foldl
        (fun rs s => updateOrCreate (fun r => kf r == key s) (fl s) (cl s) rs)
        (specs.foldl
          (fun rs s => updateOrCreate (fun r => kf r == key s) (fl s) (cl s) rs)
          rows) =
      specs.foldl
        (fun rs s => updateOrCreate (fun r => kf r == key s) (fl s) (cl s) rs)
        rows := by
  refine list_eq_of_keys_and_find kf _ _ ?_ ?_ ?_
  · rw [keys_foldUOC kf key fl cl specs _ hkc hkf, keys_foldUOC kf key fl cl specs _ hkc hkf]
    exact keysFold_absorb key specs _
      (fun s hs => keysFold_mem_establish key specs _ s hs)
  · rw [keys_foldUOC kf key fl cl specs _ hkc hkf, keys_foldUOC kf key fl cl specs _ hkc hkf,
      keysFold_absorb key specs _ (fun s hs => keysFold_mem_establish key specs _ s hs)]
    exact keysFold_nodup key specs _ hrows
  · intro k
    by_cases hmem : k ∈ specs.map key
    · obtain ⟨s0, hs0, hk0⟩ := List.mem_map.mp hmem
      subst hk0
      rw [find?_foldUOC_mem kf key fl cl specs _ s0 hkc hkf hnd hs0,
        find?_foldUOC_mem kf key fl cl specs _ s0 hkc hkf hnd hs0]
      rcases rows.find? (fun r => kf r == key s0) with _ | r
      · simp [Option.elim, hfc s0]
      · simp [Option.elim, hff s0 r]
    · rw [find?_foldUOC_not_mem kf key fl cl specs _ k hkc hkf hmem,
        find?_foldUOC_not_mem kf key fl cl specs _ k hkc hkf hmem]

theorem getOrCreate_any_mono {α : Type} (p q : α → Bool) (c : α) (rows : List α)
    (h : rows.any q = true) : (getOrCreate p c rows).any q = true := by
  unfold getOrCreate
  by_cases hp : rows.any p = true
  · rw [if_pos hp]; exact h
  · rw [if_neg hp]
    rw [List.any_append, h]
    rfl

theorem getOrCreate_any_self {α : Type} (p : α → Bool) (c : α) (rows : List α)
    (hc : p c = true) : (getOrCreate p c rows).any p = true := by
  unfold getOrCreate
  by_cases hp : rows.any p = true
  · rw [if_pos hp]; exact hp
  · rw [if_neg hp]
    simp [List.any_append, hc]

theorem getOrCreate_of_any {α : Type} (p : α → Bool) (c : α) (rows : List α)
    (h : rows.any p = true) : getOrCreate p c rows = rows := by
  unfold getOrCreate
  rw [if_pos h]

theorem instFold_any_mono (logs : List IssuedLog) (rows : List InstitutionRow)
    (q : InstitutionRow → Bool) (h : rows.any q = true) :
    (logs.foldl institutionStep rows).any q = true := by
  induction logs generalizing rows with
  | nil => exact h
  | cons l t ih =>
    rw [List.foldl_cons]
    exact ih _ (getOrCreate_any_mono _ _ _ _ h)

theorem instFold_any_establish (logs : List IssuedLog) (rows : List InstitutionRow)
    (l0 : IssuedLog) (hl0 : l0 ∈ logs) :
    ((logs.foldl institutionStep rows).any
      (fun i => i.address == pyLower l0.institution)) = true := by
  induction logs generalizing rows with
  | nil => cases hl0
  | cons l t ih =>
    rw [List.foldl_cons]
    rcases List.mem_cons.mp hl0 with heq | hmem
    · subst heq
      exact instFold_any_mono t _ _
        (getOrCreate_any_self _ _ rows (by simp [unknownInstitutionRow]))
    · exact ih _ hmem

theorem instFold_stable (logs : List IssuedLog) (rows : List InstitutionRow)
    (h : ∀ l ∈ logs, rows.any (fun i => i.address == pyLower l.institution) = true) :
    logs.foldl institutionStep rows = rows := by
  induction logs with
  | nil => rfl
  | cons l t ih =>
    rw [List.foldl_cons]
    rw [show institutionStep rows l = rows from
      getOrCreate_of_any _ _ rows (h l (List.mem_cons_self l t))]
    exact ih (fun l2 hl2 => h l2 (List.mem_cons_of_mem l hl2))

theorem instFold_idem (logs : List IssuedLog) (rows : List InstitutionRow) :
    logs.foldl institutionStep (logs.foldl institutionStep rows) =
      logs.foldl institutionStep rows :=
  instFold_stable logs _ (fun l hl => instFold_any_establish logs rows l hl)

theorem credRevokedStep_eq_mapWhere (rows : List CredentialRow) (log : RevokedLog) :
    credRevokedStep rows log =
      mapWhere (fun r => r.credential_id == (revokedRowOf log).credential_id)
        (revDefaults (revokedRowOf log)) rows := by
  unfold credRevokedStep
  by_cases hany : rows.any
      (fun r => r.credential_id == (revokedRowOf log).credential_id) = true
  · rw [if_pos hany]
  · rw [if_neg hany]
    symm
    unfold mapWhere
    exact map_eq_self_of_fix _ _ (fun r hr => by
      have hfalse := any_eq_false_all _ _ (Bool.eq_false_iff.mpr hany) r hr
      simp only [] at hfalse
      simp [hfalse])

theorem credRev_fold_eq (R : List RevokedLog) (C : List CredentialRow) :
    R.foldl credRevokedStep C =
      R.foldl
        (fun rs s =>
          mapWhere (fun r => r.credential_id == (revokedRowOf s).credential_id)
            (revDefaults (revokedRowOf s)) rs) C := by
  induction R generalizing C with
  | nil => rfl
  | cons s t ih =>
    rw [List.foldl_cons, List.foldl_cons, credRevokedStep_eq_mapWhere]
    exact ih _

theorem credTable_double (I : List IssuedLog) (R : List RevokedLog) (t : Nat)
    (C0 : List CredentialRow)
    (hndI : (I.map IssuedLog.credentialId).Nodup)
    (hndR : (R.map (fun s => (revokedRowOf s).credential_id)).Nodup)
    (hndC : (C0.map CredentialRow.credential_id).Nodup) :
    R.foldl credRevokedStep
        (I.foldl (credIssuedStep t)
          (R.foldl credRevokedStep (I.foldl (credIssuedStep t) C0))) =
      R.foldl credRevokedStep (I.foldl (credIssuedStep t) C0) := by
  have bridgeI : ∀ (J : List IssuedLog) (C : List CredentialRow),
      J.foldl (credIssuedStep t) C =
        J.foldl
          (fun rs s =>
            updateOrCreate (fun r => r.credential_id == s.credentialId)
              ((fun s2 => credDefaults (issuedRowOf s2) t) s)
              ((fun s2 => credDefaults (issuedRowOf s2) t (freshCredential s2.credentialId)) s)
              rs) C :=
    fun J C => rfl
  have hkcI : ∀ (s : IssuedLog),
      CredentialRow.credential_id
        ((fun s2 => credDefaults (issuedRowOf s2) t (freshCredential s2.credentialId)) s) =
      IssuedLog.credentialId s := fun s => rfl
  have hkfI : ∀ (s : IssuedLog) (r : CredentialRow),
      CredentialRow.credential_id ((fun s2 => credDefaults (issuedRowOf s2) t) s r) =
      CredentialRow.credential_id r := fun s r => rfl
  have hkgR : ∀ (s : RevokedLog) (r : CredentialRow),
      CredentialRow.credential_id ((fun s2 => revDefaults (revokedRowOf s2)) s r) =
      CredentialRow.credential_id r := fun s r => rfl
  rw [credRev_fold_eq, credRev_fold_eq, bridgeI, bridgeI]
  refine list_eq_of_keys_and_find CredentialRow.credential_id _ _ ?_ ?_ ?_
  · rw [keys_foldMW CredentialRow.credential_id
        (fun s => (revokedRowOf s).credential_id)
        (fun s2 => revDefaults (revokedRowOf s2)) R _ hkgR,
      keys_foldMW CredentialRow.credential_id
        (fun s => (revokedRowOf s).credential_id)
        (fun s2 => revDefaults (revokedRowOf s2)) R _ hkgR,
      keys_foldUOC CredentialRow.credential_id IssuedLog.credentialId
        (fun s2 => credDefaults (issuedRowOf s2) t)
        (fun s2 => credDefaults (issuedRowOf s2) t (freshCredential s2.credentialId))
        I _ hkcI hkfI,
      keys_foldUOC CredentialRow.credential_id IssuedLog.credentialId
        (fun s2 => credDefaults (issuedRowOf s2) t)
        (fun s2 => credDefaults (issuedRowOf s2) t (freshCredential s2.credentialId))
        I _ hkcI hkfI,
      keys_foldMW CredentialRow.credential_id
        (fun s => (revokedRowOf s).credential_id)
        (fun s2 => revDefaults (revokedRowOf s2)) R _ hkgR,
      keys_foldUOC CredentialRow.credential_id IssuedLog.credentialId
        (fun s2 => credDefaults (issuedRowOf s2) t)
        (fun s2 => credDefaults (issuedRowOf s2) t (freshCredential s2.credentialId))
        I _ hkcI hkfI]
    exact keysFold_absorb IssuedLog.credentialId I _
      (fun s hs => keysFold_mem_establish IssuedLog.credentialId I _ s hs)
  · rw [keys_foldMW CredentialRow.credential_id
        (fun s => (revokedRowOf s).credential_id)
        (fun s2 => revDefaults (revokedRowOf s2)) R _ hkgR,
      keys_foldUOC CredentialRow.credential_id IssuedLog.credentialId
        (fun s2 => credDefaults (issuedRowOf s2) t)
        (fun s2 => credDefaults (issuedRowOf s2) t (freshCredential s2.credentialId))
        I _ hkcI hkfI,
      keys_foldMW CredentialRow.credential_id
        (fun s => (revokedRowOf s).credential_id)
        (fun s2 => revDefaults (revokedRowOf s2)) R _ hkgR,
      keys_foldUOC CredentialRow.credential_id IssuedLog.credentialId
        (fun s2 => credDefaults (issuedRowOf s2) t)
        (fun s2 => credDefaults (issuedRowOf s2) t (freshCredential s2.credentialId))
        I _ hkcI hkfI]
    exact keysFold_nodup IssuedLog.credentialId I _
      (keysFold_nodup IssuedLog.credentialId I _ hndC)
  · intro k
    by_cases hI : k ∈ I.map IssuedLog.credentialId
    · obtain ⟨sI, hsI, hkI⟩ := List.mem_map.mp hI
      subst hkI
      have e1 := find?_foldUOC_mem CredentialRow.credential_id IssuedLog.credentialId
        (fun s2 => credDefaults (issuedRowOf s2) t)
        (fun s2 => credDefaults (issuedRowOf s2) t (freshCredential s2.credentialId))
        I C0 sI hkcI hkfI hndI hsI
      have e3base := find?_foldUOC_mem CredentialRow.credential_id IssuedLog.credentialId
        (fun s2 => credDefaults (issuedRowOf s2) t)
        (fun s2 => credDefaults (issuedRowOf s2) t (freshCredential s2.credentialId))
        I (R.foldl
            (fun rs s =>
              mapWhere (fun r => r.credential_id == (revokedRowOf s).credential_id)
                ((fun s2 => revDefaults (revokedRowOf s2)) s) rs)
            (I.foldl
              (fun rs s =>
                updateOrCreate (fun r => r.credential_id == s.credentialId)
                  ((fun s2 => credDefaults (issuedRowOf s2) t) s)
                  ((fun s2 =>
                    credDefaults (issuedRowOf s2) t (freshCredential s2.credentialId)) s)
                  rs) C0))
        sI hkcI hkfI hndI hsI
      by_cases hR : IssuedLog.credentialId sI ∈
          R.map (fun s => (revokedRowOf s).credential_id)
      · obtain ⟨sR, hsR, hkR⟩ := List.mem_map.mp hR
        have e2 := find?_foldMW_mem CredentialRow.credential_id
          (fun s => (revokedRowOf s).credential_id)
          (fun s2 => revDefaults (revokedRowOf s2)) R
          (I.foldl
            (fun rs s =>
              updateOrCreate (fun r => r.credential_id == s.credentialId)
                ((fun s2 => credDefaults (issuedRowOf s2) t) s)
                ((fun s2 =>
                  credDefaults (issuedRowOf s2) t (freshCredential s2.credentialId)) s)
                rs) C0)
          sR hkgR hndR hsR
        simp only [] at e2
        rw [hkR] at e2
        have e4 := find?_foldMW_mem CredentialRow.credential_id
          (fun s => (revokedRowOf s).credential_id)
          (fun s2 => revDefaults (revokedRowOf s2)) R
          (I.foldl
            (fun rs s =>
              updateOrCreate (fun r => r.credential_id == s.credentialId)
                ((fun s2 => credDefaults (issuedRowOf s2) t) s)
                ((fun s2 =>
                  credDefaults (issuedRowOf s2) t (freshCredential s2.credentialId)) s)
                rs)
            (R.foldl
              (fun rs s =>
                mapWhere (fun r => r.credential_id == (revokedRowOf s).credential_id)
                  ((fun s2 => revDefaults (revokedRowOf s2)) s) rs)
              (I.foldl
                (fun rs s =>
                  updateOrCreate (fun r => r.credential_id == s.credentialId)
                    ((fun s2 => credDefaults (issuedRowOf s2) t) s)
                    ((fun s2 =>
                      credDefaults (issuedRowOf s2) t (freshCredential s2.credentialId)) s)
                    rs) C0)))
          sR hkgR hndR hsR
        simp only [] at e4
        rw [hkR] at e4
        simp only [] at e1 e3base ⊢
        rw [e4, e3base, e2, e1]
        cases hv : C0.find? (fun r => r.credential_id == sI.credentialId) with
        | none => rfl
        | some r => rfl
      · have e2 := find?_foldMW_not_mem CredentialRow.credential_id
          (fun s => (revokedRowOf s).credential_id)
          (fun s2 => revDefaults (revokedRowOf s2)) R
          (I.foldl
            (fun rs s =>
              updateOrCreate (fun r => r.credential_id == s.credentialId)
                ((fun s2 => credDefaults (issuedRowOf s2) t) s)
                ((fun s2 =>
                  credDefaults (issuedRowOf s2) t (freshCredential s2.credentialId)) s)
                rs) C0)
          (IssuedLog.credentialId sI) hkgR hR
        have e4 := find?_foldMW_not_mem CredentialRow.credential_id
          (fun s => (revokedRowOf s).credential_id)
          (fun s2 => revDefaults (revokedRowOf s2)) R
          (I.foldl
            (fun rs s =>
              updateOrCreate (fun r => r.credential_id == s.credentialId)
                ((fun s2 => credDefaults (issuedRowOf s2) t) s)
                ((fun s2 =>
                  credDefaults (issuedRowOf s2) t (freshCredential s2.credentialId)) s)
                rs)
            (R.foldl
              (fun rs s =>
                mapWhere (fun r => r.credential_id == (revokedRowOf s).credential_id)
                  ((fun s2 => revDefaults (revokedRowOf s2)) s) rs)
              (I.foldl
                (fun rs s =>
                  updateOrCreate (fun r => r.credential_id == s.credentialId)
                    ((fun s2 => credDefaults (issuedRowOf s2) t) s)
                    ((fun s2 =>
                      credDefaults (issuedRowOf s2) t (freshCredential s2.credentialId)) s)
                    rs) C0)))
          (IssuedLog.credentialId sI) hkgR hR
        simp only [] at e1 e3base ⊢
        rw [e4, e3base, e2, e1]
        cases hv : C0.find? (fun r => r.credential_id == sI.credentialId) with
        | none => rfl
        | some r => rfl
    · have e1 := find?_foldUOC_not_mem CredentialRow.credential_id IssuedLog.credentialId
        (fun s2 => credDefaults (issuedRowOf s2) t)
        (fun s2 => credDefaults (issuedRowOf s2) t (freshCredential s2.credentialId))
        I C0 k hkcI hkfI hI
      have e3 := find?_foldUOC_not_mem CredentialRow.credential_id IssuedLog.credentialId
        (fun s2 => credDefaults (issuedRowOf s2) t)
        (fun s2 => credDefaults (issuedRowOf s2) t (freshCredential s2.credentialId))
        I (R.foldl
            (fun rs s =>
              mapWhere (fun r => r.credential_id == (revokedRowOf s).credential_id)
                ((fun s2 => revDefaults (revokedRowOf s2)) s) rs)
            (I.foldl
              (fun rs s =>
                updateOrCreate (fun r => r.credential_id == s.credentialId)
                  ((fun s2 => credDefaults (issuedRowOf s2) t) s)
                  ((fun s2 =>
                    credDefaults (issuedRowOf s2) t (freshCredential s2.credentialId)) s)
                  rs) C0))
        k hkcI hkfI hI
      by_cases hR : k ∈ R.map (fun s => (revokedRowOf s).credential_id)
      · obtain ⟨sR, hsR, hkR⟩ := List.mem_map.mp hR
        have e2 := find?_foldMW_mem CredentialRow.credential_id
          (fun s => (revokedRowOf s).credential_id)
          (fun s2 => revDefaults (revokedRowOf s2)) R
          (I.foldl
            (fun rs s =>
              updateOrCreate (fun r => r.credential_id == s.credentialId)
                ((fun s2 => credDefaults (issuedRowOf s2) t) s)
                ((fun s2 =>
                  credDefaults (issuedRowOf s2) t (freshCredential s2.credentialId)) s)
                rs) C0)
          sR hkgR hndR hsR
        simp only [] at e2
        rw [hkR] at e2
        have e4 := find?_foldMW_mem CredentialRow.credential_id
          (fun s => (revokedRowOf s).credential_id)
          (fun s2 => revDefaults (revokedRowOf s2)) R
          (I.foldl
            (fun rs s =>
              updateOrCreate (fun r => r.credential_id == s.credentialId)
                ((fun s2 => credDefaults (issuedRowOf s2) t) s)
                ((fun s2 =>
                  credDefaults (issuedRowOf s2) t (freshCredential s2.credentialId)) s)
                rs)
            (R.foldl
              (fun rs s =>
                mapWhere (fun r => r.credential_id == (revokedRowOf s).credential_id)
                  ((fun s2 => revDefaults (revokedRowOf s2)) s) rs)
              (I.foldl
                (fun rs s =>
                  updateOrCreate (fun r => r.credential_id == s.credentialId)
                    ((fun s2 => credDefaults (issuedRowOf s2) t) s)
                    ((fun s2 =>
                      credDefaults (issuedRowOf s2) t (freshCredential s2.credentialId)) s)
                    rs) C0)))
          sR hkgR hndR hsR
        simp only [] at e4
        rw [hkR] at e4
        simp only [] at e1 e2 e3 e4 ⊢
        rw [e4, e3, e2, e1]
        cases hv : C0.find? (fun r => r.credential_id == k) with
        | none => rfl
        | some r => rfl
      · have e2 := find?_foldMW_not_mem CredentialRow.credential_id
          (fun s => (revokedRowOf s).credential_id)
          (fun s2 => revDefaults (revokedRowOf s2)) R
          (I.foldl
            (fun rs s =>
              updateOrCreate (fun r => r.credential_id == s.credentialId)
                ((fun s2 => credDefaults (issuedRowOf s2) t) s)
                ((fun s2 =>
                  credDefaults (issuedRowOf s2) t (freshCredential s2.credentialId)) s)
                rs) C0)
          k hkgR hR
        have e4 := find?_foldMW_not_mem CredentialRow.credential_id
          (fun s => (revokedRowOf s).credential_id)
          (fun s2 => revDefaults (revokedRowOf s2)) R
          (I.foldl
            (fun rs s =>
              updateOrCreate (fun r => r.credential_id == s.credentialId)
                ((fun s2 => credDefaults (issuedRowOf s2) t) s)
                ((fun s2 =>
                  credDefaults (issuedRowOf s2) t (freshCredential s2.credentialId)) s)
                rs)
            (R.foldl
              (fun rs s =>
                mapWhere (fun r => r.credential_id == (revokedRowOf s).credential_id)
                  ((fun s2 => revDefaults (revokedRowOf s2)) s) rs)
              (I.foldl
                (fun rs s =>
                  updateOrCreate (fun r => r.credential_id == s.credentialId)
                    ((fun s2 => credDefaults (issuedRowOf s2) t) s)
                    ((fun s2 =>
                      credDefaults (issuedRowOf s2) t (freshCredential s2.credentialId)) s)
                    rs) C0)))
          k hkgR hR
        simp only [] at e1 e2 e3 e4 ⊢
        rw [e4, e3, e2, e1]

/-- Claim C3 (amended): replaying the event-processing body of an Indexer run
over the same block range is idempotent — identical event, institution and
credential rows, no duplicates — provided every replayed issuance event
carries a nonzero expiry or the two passes read the same clock (otherwise
`issued_at` is re-stamped, see the counterexample), and the stable
identifiers (transaction hashes, credential ids) in the range and in the
store are unique, as the schema's unique constraints guarantee. -/
theorem C3_amended_idempotent_replay (ch : Chain) (from_block to_block t1 t2 : Nat)
    (db : DB)
    (hndItx : ((get_events_issued ch from_block to_block).map
      IssuedLog.transactionHash).Nodup)
    (hndRtx : ((get_events_revoked ch from_block to_block).map
      RevokedLog.transactionHash).Nodup)
    (hndIid : ((get_events_issued ch from_block to_block).map
      IssuedLog.credentialId).Nodup)
    (hndRid : ((get_events_revoked ch from_block to_block).map
      RevokedLog.credentialId).Nodup)
    (hdbI : (db.issued_events.map CredentialIssuedEventRow.transaction_hash).Nodup)
    (hdbR : (db.revoked_events.map CredentialRevokedEventRow.transaction_hash).Nodup)
    (hdbC : (db.credentials.map CredentialRow.credential_id).Nodup)
    (ht : t2 = t1 ∨ ∀ l ∈ get_events_issued ch from_block to_block, l.expiresAt ≠ 0) :
    process_range ch from_block to_block t2 (process_range ch from_block to_block t1 db) =
      process_range ch from_block to_block t1 db := by
  have hstep : ∀ (C : List CredentialRow),
      (get_events_issued ch from_block to_block).foldl (credIssuedStep t2) C =
        (get_events_issued ch from_block to_block).foldl (credIssuedStep t1) C := by
    intro C
    rcases ht with h | h
    · rw [h]
    · exact foldl_congr_of_steps _ _ _ _
        (fun x s hs => credIssuedStep_time_indep t1 t2 x s (h s hs))
  rw [process_range_components ch from_block to_block t1,
    process_range_components ch from_block to_block t2]
  refine DB_eq_of_fields ?_ ?_ ?_ ?_ ?_
  · exact foldUOC_idem CredentialIssuedEventRow.transaction_hash
      IssuedLog.transactionHash
      (fun s r => { issuedRowOf s with transaction_hash := r.transaction_hash })
      issuedRowOf (get_events_issued ch from_block to_block) db.issued_events
      (fun s => rfl) (fun s r => rfl) (fun s r => rfl) (fun s => rfl) hndItx hdbI
  · exact foldUOC_idem CredentialRevokedEventRow.transaction_hash
      RevokedLog.transactionHash
      (fun s r => { revokedRowOf s with transaction_hash := r.transaction_hash })
      revokedRowOf (get_events_revoked ch from_block to_block) db.revoked_events
      (fun s => rfl) (fun s r => rfl) (fun s r => rfl) (fun s => rfl) hndRtx hdbR
  · exact instFold_idem (get_events_issued ch from_block to_block) db.institutions
  · rw [hstep]
    exact credTable_double (get_events_issued ch from_block to_block)
      (get_events_revoked ch from_block to_block) t1 db.credentials hndIid hndRid hdbC
  · rfl

/-- Claim C3 (counterexample): replaying the same block range at a later wall
clock is not idempotent as claimed — the single issuance event in the range
carries no expiry, so `sync_credential_issued` re-stamps `issued_at` with the
processing wall clock: 200 after the replay versus 100 after one run. -/
theorem C3_counterexample :
    ((process_range chainUp 11 20 200 (process_range chainUp 11 20 100 dbEmpty)).credentials.map
        CredentialRow.issued_at = [200]) ∧
    ((process_range chainUp 11 20 100 dbEmpty).credentials.map
        CredentialRow.issued_at = [100]) ∧
    process_range chainUp 11 20 200 (process_range chainUp 11 20 100 dbEmpty) ≠
      process_range chainUp 11 20 100 dbEmpty := by
  refine ⟨rfl, rfl, ?_⟩
  intro h
  have h2 := congrArg (fun d => d.credentials.map CredentialRow.issued_at) h
  simp only [] at h2
  rw [show (process_range chainUp 11 20 200
      (process_range chainUp 11 20 100 dbEmpty)).credentials.map
      CredentialRow.issued_at = [200] from rfl,
    show (process_range chainUp 11 20 100 dbEmpty).credentials.map
      CredentialRow.issued_at = [100] from rfl] at h2
  cases h2

/-- Witness for C3's amended theorem at a concrete chain whose single issuance
event carries a positive expiry. -/
theorem C3_amended_witness :
    process_range chainOneExpiring 11 20 200
        (process_range chainOneExpiring 11 20 100 dbEmpty) =
      process_range chainOneExpiring 11 20 100 dbEmpty :=
  C3_amended_idempotent_replay chainOneExpiring 11 20 100 200 dbEmpty (by decide)
    (by decide) (by decide) (by decide) (by decide) (by decide) (by decide)
    (Or.inr (by decide))

/-- Claim C1 (code bug, evaluated at the failing input): the store holds the
revoked credential 7; re-projecting its issuance event through
`sync_credential_issued` — whose `update_or_create` defaults include
`revoked=False` unconditionally — writes the row back with `revoked=false`,
resurrecting it. -/
theorem C1_issuance_projection_resurrects_revoked :
    dbRevoked7.credentials.map CredentialRow.revoked = [true] ∧
    (sync_credential_issued issuedEvent7 500 dbRevoked7).credentials.map
      CredentialRow.credential_id = [7] ∧
    (sync_credential_issued issuedEvent7 500 dbRevoked7).credentials.map
      CredentialRow.revoked = [false] :=
  ⟨rfl, rfl, rfl⟩

/-- Claim C2 (code bug, evaluated at the failing input): the chain holds an
issuance log at block 15 inside the range (10, 20], but the log queries raise
(RPC failure); `BlockProofService.get_events` catches the exception and
returns `[]`, so the run completes with zero upserts and still advances the
checkpoint from 10 to 20 — the events in the skipped range are never
indexed.  With healthy queries the same run stores the event row. -/
theorem C2_fetch_failure_advances_checkpoint :
    checkpoint_value dbCkpt10 "credential_events" = 10 ∧
    checkpoint_value (index_blockchain_events 1000 chainDown 999 dbCkpt10)
      "credential_events" = 20 ∧
    (index_blockchain_events 1000 chainDown 999 dbCkpt10).issued_events = [] ∧
    (index_blockchain_events 1000 chainDown 999 dbCkpt10).credentials = [] ∧
    (index_blockchain_events 1000 chainUp 999 dbCkpt10).issued_events =
      [issuedRowOf issuedLog7] :=
  ⟨rfl, rfl, rfl, rfl, rfl⟩

/-- Claim C9: when the stored checkpoint already equals or exceeds the chain
head, a single indexer run performs no event or projection upserts and leaves
the checkpoint value unchanged (`to = min(checkpoint + batch, head) <=
checkpoint` short-circuits the run). -/
theorem C9_out_of_range_noop (batch_size now : Nat) (ch : Chain) (db : DB)
    (h : ch.head ≤ checkpoint_value db "credential_events") :
    (index_blockchain_events batch_size ch now db).issued_events = db.issued_events ∧
    (index_blockchain_events batch_size ch now db).revoked_events = db.revoked_events ∧
    (index_blockchain_events batch_size ch now db).institutions = db.institutions ∧
    (index_blockchain_events batch_size ch now db).credentials = db.credentials ∧
    checkpoint_value (index_blockchain_events batch_size ch now db)
      "credential_events" = checkpoint_value db "credential_events" := by
  simp only [index_blockchain_events]
  by_cases hc : ch.contractConfigured = true
  · rw [if_neg (by simp [hc])]
    rcases hfind : db.indexer_state.find? (fun pr => pr.1 == "credential_events")
      with _ | pr
    · have hcv : checkpoint_value db "credential_events" = 0 := by
        simp [checkpoint_value, hfind]
      have hhead : ch.head = 0 := Nat.le_zero.mp (hcv ▸ h)
      have hgl : get_last_block db "credential_events" =
          (0, { db with indexer_state := db.indexer_state ++ [("credential_events", 0)] }) := by
        simp [get_last_block, hfind]
      rw [hgl]
      rw [if_pos (by simp [hhead])]
      refine ⟨rfl, rfl, rfl, rfl, ?_⟩
      rw [hcv]
      simp [checkpoint_value, find?_append_of_none _ _ _ hfind, List.find?]
    · have hcv : checkpoint_value db "credential_events" = pr.2 := by
        simp [checkpoint_value, hfind]
      have hgl : get_last_block db "credential_events" = (pr.2, db) := by
        simp [get_last_block, hfind]
      rw [hgl]
      rw [if_pos (le_trans (min_le_right _ _) (hcv ▸ h))]
      exact ⟨rfl, rfl, rfl, rfl, rfl⟩
  · have hoff : ch.contractConfigured = false := Bool.eq_false_iff.mpr hc
    rw [if_pos (by simp [hoff])]
    exact ⟨rfl, rfl, rfl, rfl, rfl⟩

/-- Witness for C9 at a chain whose head (5) is behind the checkpoint (10). -/
theorem C9_witness :
    chainShort.head ≤ checkpoint_value dbCkpt10 "credential_events" ∧
    (index_blockchain_events 1000 chainShort 999 dbCkpt10).credentials =
      dbCkpt10.credentials ∧
    checkpoint_value (index_blockchain_events 1000 chainShort 999 dbCkpt10)
      "credential_events" = checkpoint_value dbCkpt10 "credential_events" :=
  ⟨by decide,
    (C9_out_of_range_noop 1000 999 chainShort dbCkpt10 (by decide)).2.2.2.1,
    (C9_out_of_range_noop 1000 999 chainShort dbCkpt10 (by decide)).2.2.2.2⟩

/-- Claim C10: the issuance projection stores, as `issued_at`, the event's
`expires_at` whenever the event carries a (nonzero) expiry, and the wall
clock of processing otherwise; the event carries no on-chain issuance
timestamp, so none is ever stored by this path. -/
theorem C10_projection_issued_at (ev : CredentialIssuedEventRow) (now : Nat) (db : DB) :
    ∃ r, findCredential (sync_credential_issued ev now db).credentials
        ev.credential_id = some r ∧
      (∀ v, ev.expires_at = some v → v ≠ 0 → r.issued_at = v) ∧
      ((ev.expires_at = none ∨ ev.expires_at = some 0) → r.issued_at = now) := by
  have hfind := find?_updateOrCreate CredentialRow.credential_id ev.credential_id
    (credDefaults ev now) (credDefaults ev now (freshCredential ev.credential_id))
    db.credentials rfl (fun r => rfl)
  have hfind2 : findCredential (sync_credential_issued ev now db).credentials
      ev.credential_id =
      some ((db.credentials.find? (fun r => r.credential_id == ev.credential_id)).elim
        (credDefaults ev now (freshCredential ev.credential_id)) (credDefaults ev now)) :=
    hfind
  refine ⟨_, hfind2, ?_, ?_⟩
  · intro v hv hv0
    cases hopt : db.credentials.find? (fun r => r.credential_id == ev.credential_id) with
    | none => simp [Option.elim, credDefaults, truthyOpt, hv, hv0]
    | some r0 => simp [Option.elim, credDefaults, truthyOpt, hv, hv0]
  · intro hv
    cases hopt : db.credentials.find? (fun r => r.credential_id == ev.credential_id) with
    | none => rcases hv with hv | hv <;> simp [Option.elim, credDefaults, truthyOpt, hv]
    | some r0 => rcases hv with hv | hv <;> simp [Option.elim, credDefaults, truthyOpt, hv]

/-- Witness for C10 at the concrete no-expiry event for credential 7. -/
theorem C10_witness :
    ∃ r, findCredential (sync_credential_issued issuedEvent7 500 dbEmpty).credentials
        issuedEvent7.credential_id = some r ∧
      (∀ v, issuedEvent7.expires_at = some v → v ≠ 0 → r.issued_at = v) ∧
      ((issuedEvent7.expires_at = none ∨ issuedEvent7.expires_at = some 0) →
        r.issued_at = 500) :=
  C10_projection_issued_at issuedEvent7 500 dbEmpty

/-- Claim C4: for a credential found in the cache, `verify_from_link` returns
TAMPERED with `fingerprint_match=false` exactly when the normalized supplied
fingerprint differs from the normalized stored one, and otherwise VALID or
INVALID (with the `revoked`/`expired` flags) according to validity recomputed
on read: not revoked and (no expiry or expiry not in the past).  Stores
written by this system never hold `expires_at = 0` (both write paths coerce 0
to NULL), which the positivity hypothesis reflects. -/
theorem C4_cache_decision_table (db : DB) (ch : VerifyChain) (cid now : Nat)
    (fp : PyStr) (c : CredentialRow)
    (hc : findCredential db.credentials cid = some c)
    (he : ∀ v, c.expires_at = some v → 0 < v) :
    (replace2 '0' 'x' (pyLower c.fingerprint) ≠ view_clean fp →
      verify_from_link db ch (some cid) fp now =
        .cacheTampered c.fingerprint ('0' :: 'x' :: view_clean fp)) ∧
    (replace2 '0' 'x' (pyLower c.fingerprint) = view_clean fp →
      (verify_from_link db ch (some cid) fp now =
        .cacheValid (if c.is_valid now then .VALID else .INVALID) (c.is_valid now)
          c.revoked (pyExpired c.expires_at now)) ∧
      (c.is_valid now = true ↔
        (c.revoked = false ∧
          (c.expires_at = none ∨ ∃ v, c.expires_at = some v ∧ now ≤ v)))) := by
  constructor
  · intro hne
    simp only [verify_from_link, hc]
    rw [if_neg hne]
  · intro heq
    constructor
    · simp only [verify_from_link, hc]
      rw [if_pos heq]
    · cases hr : c.revoked
      · cases hev : c.expires_at with
        | none => simp [CredentialRow.is_valid, pyExpired, hr, hev]
        | some v =>
          have hv0 : v ≠ 0 := Nat.pos_iff_ne_zero.mp (he v hev)
          by_cases hlt : v < now
          · simp only [CredentialRow.is_valid, pyExpired, hr, hev]
            simp [hv0, hlt]
          · simp only [CredentialRow.is_valid, pyExpired, hr, hev]
            simp [hv0, hlt]
            omega
      · simp [CredentialRow.is_valid, hr]

/-- Witness for C4: the cached credential 1 with matching fingerprint yields
a VALID verdict from the cache. -/
theorem C4_witness :
    replace2 '0' 'x' (pyLower cachedCredential1.fingerprint) =
      view_clean ('0' :: 'x' :: fp_a) ∧
    verify_from_link dbCached1 chainOff (some 1) ('0' :: 'x' :: fp_a) 1000 =
      .cacheValid .VALID true false false := by
  refine ⟨rfl, ?_⟩
  have h := (C4_cache_decision_table dbCached1 chainOff 1 1000 ('0' :: 'x' :: fp_a)
    cachedCredential1 rfl
    (fun v hv => by simp [cachedCredential1, freshCredential] at hv)).2 rfl
  rw [h.1]
  rfl

/-- Claim C5 (counterexample): credential 42 is not cached and the chain
client's read-only fingerprint-verification call errors, so
`verify_fingerprint` returns `None`; `verify_from_link` then falls through
`'TAMPERED' if is_valid is False else 'NOT_FOUND'` to a NOT_FOUND verdict
(HTTP 200) — not the claimed service-unavailable error. -/
theorem C5_counterexample :
    verify_from_link dbEmpty chainErr (some 42) fp_a 1000 =
      .chainNegative .NOT_FOUND ∧
    (verify_from_link dbEmpty chainErr (some 42) fp_a 1000).statusTag =
      some .NOT_FOUND ∧
    verify_from_link dbEmpty chainErr (some 42) fp_a 1000 ≠ .serviceUnavailable :=
  ⟨rfl, rfl, by decide⟩

/-- Claim C5 (amended): when the credential is not cached and the chain call
errors, `verify_from_link` returns the NOT_FOUND verdict; the
service-unavailable error is returned only when the blockchain service or
contract is not configured. -/
theorem C5_amended_error_surfaces_as_not_found (db db2 : DB) (ch ch2 : VerifyChain)
    (cid cid2 now now2 : Nat) (fp fp2 : PyStr)
    (hmiss : findCredential db.credentials cid = none)
    (hconf : ch.contractConfigured = true)
    (herr : ch.callResult = none)
    (hmiss2 : findCredential db2.credentials cid2 = none)
    (hoff : ch2.contractConfigured = false) :
    verify_from_link db ch (some cid) fp now = .chainNegative .NOT_FOUND ∧
    verify_from_link db2 ch2 (some cid2) fp2 now2 = .serviceUnavailable := by
  constructor
  · simp only [verify_from_link, hmiss]
    rw [if_pos hconf]
    have hvf : verify_fingerprint ch cid ('0' :: 'x' :: view_clean fp) = none := by
      unfold verify_fingerprint
      rw [if_neg (by simp [hconf])]
      by_cases hvalid : valid64hex (vf_clean ('0' :: 'x' :: view_clean fp)) = true
      · rw [if_pos hvalid]; exact herr
      · rw [if_neg hvalid]
    rw [hvf]
  · simp only [verify_from_link, hmiss2]
    rw [if_neg (by simp [hoff])]

/-- Witness for C5's amended theorem at concrete chain states. -/
theorem C5_amended_witness :
    verify_from_link dbEmpty chainErr (some 7) fp_a 999 = .chainNegative .NOT_FOUND ∧
    verify_from_link dbEmpty chainOff (some 7) fp_a 999 = .serviceUnavailable :=
  C5_amended_error_surfaces_as_not_found dbEmpty dbEmpty chainErr chainOff 7 7
    999 999 fp_a fp_a rfl rfl rfl rfl rfl

/-- Claim C6 (counterexample): the supplied fingerprint `zz` is not 64 hex
characters after normalization, yet `verify_from_link` performs the cache
lookup for credential 1 and returns a TAMPERED verdict — no validation error
is raised before the cache or chain layers. -/
theorem C6_counterexample :
    valid64hex (view_clean ['z', 'z']) = false ∧
    verify_from_link dbCached1 chainErr (some 1) ['z', 'z'] 1000 =
      .cacheTampered ('0' :: 'x' :: fp_a) ['0', 'x', 'z', 'z'] ∧
    (verify_from_link dbCached1 chainErr (some 1) ['z', 'z'] 1000).statusTag =
      some .TAMPERED :=
  ⟨rfl, rfl, rfl⟩

/-- Claim C6 (amended): `verify_from_link` validates only the credential id
upfront; a malformed supplied fingerprint still reaches the cache lookup —
against a cached credential with a well-formed stored fingerprint it yields
TAMPERED, and on the chain fallback `verify_fingerprint`'s internal
validation rejects it so the response is the NOT_FOUND verdict, never a
validation error. -/
theorem C6_amended_no_upfront_validation (db db2 : DB) (ch : VerifyChain)
    (cid cid2 now now2 : Nat) (fp fp2 : PyStr) (c : CredentialRow)
    (hc : findCredential db.credentials cid = some c)
    (hbad : valid64hex (view_clean fp) = false)
    (hstored : valid64hex (replace2 '0' 'x' (pyLower c.fingerprint)) = true)
    (hmiss : findCredential db2.credentials cid2 = none)
    (hconf : ch.contractConfigured = true)
    (hbad2 : valid64hex (vf_clean ('0' :: 'x' :: view_clean fp2)) = false) :
    verify_from_link db ch (some cid) fp now =
      .cacheTampered c.fingerprint ('0' :: 'x' :: view_clean fp) ∧
    verify_from_link db2 ch (some cid2) fp2 now2 = .chainNegative .NOT_FOUND := by
  constructor
  · have hne : ¬ (replace2 '0' 'x' (pyLower c.fingerprint) = view_clean fp) := by
      intro heq
      rw [heq] at hstored
      rw [hstored] at hbad
      exact Bool.noConfusion hbad
    simp only [verify_from_link, hc]
    rw [if_neg hne]
  · simp only [verify_from_link, hmiss]
    rw [if_pos hconf]
    have hvf : verify_fingerprint ch cid2 ('0' :: 'x' :: view_clean fp2) = none := by
      unfold verify_fingerprint
      rw [if_neg (by simp [hconf]), if_neg (by simp [hbad2])]
    rw [hvf]

/-- Witness for C6's amended theorem with the malformed fingerprint `zz`. -/
theorem C6_amended_witness :
    verify_from_link dbCached1 chainErr (some 1) ['z', 'z'] 555 =
      .cacheTampered cachedCredential1.fingerprint
        ('0' :: 'x' :: view_clean ['z', 'z']) ∧
    verify_from_link dbEmpty chainErr (some 3) ['z', 'z'] 555 =
      .chainNegative .NOT_FOUND :=
  C6_amended_no_upfront_validation dbCached1 dbEmpty chainErr 1 3 555 555
    ['z', 'z'] ['z', 'z'] cachedCredential1 rfl rfl rfl rfl rfl rfl

/-- Claim C7: an `issue_credential` run requiring all three bootstrap
transactions sends exactly four transactions whose nonces are strictly
increasing and contiguous from the pending-transaction count read once at the
start and never re-queried (the counter is only incremented locally). -/
theorem C7_nonce_sequencing (p : IssuePreflight) (pending_count : Nat)
    (h1 : p.instExists = false) (h2 : p.isSuperAdmin = true)
    (h3 : p.isRegistrar = false) (h4 : p.canIssueAfterBootstrap = false) :
    issue_credential_txs p pending_count =
      [(.setRegistrar, pending_count), (.upsertInstitution, pending_count + 1),
       (.setInstitutionController, pending_count + 2),
       (.issueCredential, pending_count + 3)] := by
  simp [issue_credential_txs, issue_credential_plan, assignNonces, h1, h2, h3, h4]

/-- Witness for C7 at the all-bootstrap preflight state and pending count 7. -/
theorem C7_witness :
    preflightAllBootstrap.instExists = false ∧
    preflightAllBootstrap.isSuperAdmin = true ∧
    preflightAllBootstrap.isRegistrar = false ∧
    preflightAllBootstrap.canIssueAfterBootstrap = false ∧
    issue_credential_txs preflightAllBootstrap 7 =
      [(.setRegistrar, 7), (.upsertInstitution, 8), (.setInstitutionController, 9),
       (.issueCredential, 10)] :=
  ⟨rfl, rfl, rfl, rfl, C7_nonce_sequencing preflightAllBootstrap 7 rfl rfl rfl rfl⟩

theorem dropWhile_eq_self_of_none {α : Type} (q : α → Bool) (l : List α)
    (h : ∀ c ∈ l, q c = false) : l.dropWhile q = l := by
  cases l with
  | nil => rfl
  | cons a t =>
    rw [List.dropWhile_cons_of_neg]
    rw [h a (List.mem_cons_self a t)]
    simp

theorem pyStrip_eq_self (l : PyStr) (h : ∀ c ∈ l, c.isWhitespace = false) :
    pyStrip l = l := by
  unfold pyStrip dropWS
  rw [dropWhile_eq_self_of_none _ l h,
    dropWhile_eq_self_of_none _ l.reverse (fun c hc => h c (List.mem_reverse.mp hc)),
    List.reverse_reverse]

theorem hex_not_ws : ∀ c ∈ hexDigits, c.isWhitespace = false := by decide

theorem hex_toLower_ne_x : ∀ c ∈ hexDigits, Char.toLower c ≠ 'x' := by decide

theorem hex_toLower_mem : ∀ c ∈ hexDigits, Char.toLower c ∈ hexDigits := by decide

theorem hex_toLower_isHex : ∀ c ∈ hexDigits, isHexChar (Char.toLower c) = true := by
  decide

theorem hex_toLower_idem : ∀ c ∈ hexDigits,
    Char.toLower (Char.toLower c) = Char.toLower c := by decide

theorem combos_no_ws : ∀ p ∈ zeroXCombos, ∀ c ∈ p, c.isWhitespace = false := by decide

theorem map_congr_mem {α β : Type} (f g : α → β) (l : List α)
    (h : ∀ a ∈ l, f a = g a) : l.map f = l.map g := by
  induction l with
  | nil => rfl
  | cons a t ih =>
    simp only [List.map_cons]
    rw [h a (List.mem_cons_self a t), ih (fun a ha => h a (List.mem_cons_of_mem _ ha))]

theorem strip0x_lower_hex (core : PyStr) (hcore : ∀ c ∈ core, c ∈ hexDigits)
    (hlen : 2 ≤ core.length) : strip0x (pyLower core) = pyLower core := by
  cases core with
  | nil => simp at hlen
  | cons a t =>
    cases t with
    | nil => simp at hlen
    | cons b r =>
      have hb : Char.toLower b ≠ 'x' :=
        hex_toLower_ne_x b (hcore b (by simp))
      simp only [pyLower, List.map_cons, strip0x]
      rw [if_neg (fun h => hb h.2)]

theorem pyLower_idem_hex (core : PyStr) (hcore : ∀ c ∈ core, c ∈ hexDigits) :
    pyLower (pyLower core) = pyLower core := by
  unfold pyLower
  rw [List.map_map]
  exact map_congr_mem _ _ core (fun a ha => hex_toLower_idem a (hcore a ha))

theorem view_clean_prefixed (p core : PyStr) (hp : p ∈ zeroXCombos)
    (hcore : ∀ c ∈ core, c ∈ hexDigits) (hlen : 2 ≤ core.length) :
    view_clean (p ++ core) = pyLower core := by
  have hnows : ∀ c ∈ p ++ core, c.isWhitespace = false := by
    intro c hc
    rcases List.mem_append.mp hc with h | h
    · exact combos_no_ws p hp c h
    · exact hex_not_ws c (hcore c h)
  have hcore2 : strip0x (pyLower core) = pyLower core := strip0x_lower_hex core hcore hlen
  unfold view_clean
  rw [pyStrip_eq_self _ hnows]
  simp only [zeroXCombos, List.mem_cons] at hp
  rcases hp with rfl | rfl | rfl | rfl | rfl | rfl | rfl | h0
  all_goals first
    | exact absurd h0 (by simp)
    | simpa [pyLower, strip0x] using hcore2

/-- Claim C8: for any 64-hex-character core preceded by 0, 1 or 2 `0x`/`0X`
prefixes in arbitrary case, `verify_from_link`'s normalization yields the
same canonical value — the lowercased core, 64 lowercase hex characters —
independent of the prefix combination, and normalizing an
already-normalized value is a no-op. -/
theorem C8_fingerprint_normalization (p1 p2 core : PyStr)
    (h1 : p1 ∈ zeroXCombos) (h2 : p2 ∈ zeroXCombos)
    (hcore : ∀ c ∈ core, c ∈ hexDigits) (hlen : core.length = 64) :
    view_clean (p1 ++ core) = pyLower core ∧
    view_clean (p1 ++ core) = view_clean (p2 ++ core) ∧
    (pyLower core).length = 64 ∧
    (∀ c ∈ pyLower core, isHexChar c = true ∧ Char.toLower c = c) ∧
    view_clean (pyLower core) = pyLower core := by
  have hlen2 : 2 ≤ core.length := by omega
  have hmain1 := view_clean_prefixed p1 core h1 hcore hlen2
  have hmain2 := view_clean_prefixed p2 core h2 hcore hlen2
  have hmemlow : ∀ c ∈ pyLower core, c ∈ hexDigits := by
    intro c hc
    obtain ⟨a, ha, rfl⟩ := List.mem_map.mp hc
    exact hex_toLower_mem a (hcore a ha)
  refine ⟨hmain1, hmain1.trans hmain2.symm, ?_, ?_, ?_⟩
  · simp [pyLower, hlen]
  · intro c hc
    obtain ⟨a, ha, rfl⟩ := List.mem_map.mp hc
    exact ⟨hex_toLower_isHex a (hcore a ha), hex_toLower_idem a (hcore a ha)⟩
  · have hnows : ∀ c ∈ pyLower core, c.isWhitespace = false :=
      fun c hc => hex_not_ws c (hmemlow c hc)
    unfold view_clean
    rw [pyStrip_eq_self _ hnows, pyLower_idem_hex core hcore]
    exact strip0x_lower_hex core hcore hlen2

/-- Witness for C8 at the uppercase-prefixed 64-`a` fingerprint. -/
theorem C8_witness :
    ['0', 'X'] ∈ zeroXCombos ∧ (∀ c ∈ fp_a, c ∈ hexDigits) ∧ fp_a.length = 64 ∧
    view_clean (['0', 'X'] ++ fp_a) = pyLower fp_a ∧
    view_clean (pyLower fp_a) = pyLower fp_a := by
  have h := C8_fingerprint_normalization ['0', 'X'] [] fp_a (by decide) (by decide)
    (by decide) (by decide)
  exact ⟨by decide, by decide, by decide, h.1, h.2.2.2.2⟩
